import Mathlib

/-!
Verification of the variable-randomization / value-map pipeline of the
`matematyka` Django application (files `matematyka/utils.py`,
`matematyka/views.py`, `matematyka/models.py`, tests in
`matematyka/tests/test_answers.py`).

The Python code manipulates numbers as strings: a value map sends variable
names to strings, and `float(...)` / `str(...)` / `.is_integer()` / `int(...)`
are used to canonicalize them.  We shallowly embed those values as exact
decimal numbers `num / 10 ^ exp` (structure `Dec`).  This models CPython's
float/str behaviour on the finite decimal literals the pipeline itself
produces: `float(s)` is parsing of an optionally signed decimal literal,
`str(x)` is the canonical shortest decimal form (CPython's repr round-trip
guarantee `float(str(x)) == x`), `x.is_integer()` is divisibility of the
mantissa by `10 ^ exp`, and `int(x)` is exact truncation.  IEEE-754 binary
rounding and the scientific-notation forms CPython uses for `|x| >= 1e16` or
`0 < |x| < 1e-4` are outside the modelled fragment; none of the claims under
verification depends on them.
-/

namespace Matematyka

/-- An exact decimal number, value `num / 10 ^ exp`.  This is the model of a
CPython `float` produced by parsing a decimal literal. -/
structure Dec where
  num : Int
  exp : Nat
deriving DecidableEq

/-! ### Decimal digit strings -/

/-- The character of a decimal digit (`0 ≤ d ≤ 9`). -/
def digitChar (d : Nat) : Char := Char.ofNat (48 + d)

/-- Is `c` one of `'0'`-`'9'`? -/
def isDigitC (c : Char) : Bool := decide (48 ≤ c.toNat) && decide (c.toNat ≤ 57)

/-- Numeric value of a digit character. -/
def digitVal (c : Char) : Nat := c.toNat - 48

/-- Little-endian digit characters of `n` (empty for `0`); `fuel`-structured so
that the kernel can evaluate it (`fuel ≥ n` suffices). -/
def natDigitsAux : Nat → Nat → List Char
  | 0, _ => []
  | fuel + 1, n => if n = 0 then [] else digitChar (n % 10) :: natDigitsAux fuel (n / 10)

/-- Big-endian decimal digit characters of `n` (CPython's `str` of a
nonnegative integer). -/
def natDigits (n : Nat) : List Char := if n = 0 then ['0'] else (natDigitsAux n n).reverse

/-- Value of a little-endian digit-character list. -/
def leVal (l : List Char) : Nat := l.foldr (fun c acc => acc * 10 + digitVal c) 0

/-- Value of a big-endian digit-character list (leading zeros allowed). -/
def readDigits (l : List Char) : Nat := l.foldl (fun acc c => acc * 10 + digitVal c) 0

theorem digitVal_digitChar {d : Nat} (h : d < 10) : digitVal (digitChar d) = d := by
  interval_cases d <;> decide

theorem isDigitC_digitChar {d : Nat} (h : d < 10) : isDigitC (digitChar d) = true := by
  interval_cases d <;> decide

theorem leVal_natDigitsAux : ∀ (fuel n : Nat), n ≤ fuel → leVal (natDigitsAux fuel n) = n
  | 0, n, h => by
    have : n = 0 := Nat.le_zero.mp h
    subst this; rfl
  | fuel + 1, n, h => by
    by_cases hn : n = 0
    · subst hn; rfl
    · have hlt : n / 10 < n := Nat.div_lt_self (Nat.pos_of_ne_zero hn) (by decide)
      have hle : n / 10 ≤ fuel := by omega
      simp only [natDigitsAux, hn, if_false, leVal, List.foldr]
      have ih := leVal_natDigitsAux fuel (n / 10) hle
      simp only [leVal] at ih
      rw [ih, digitVal_digitChar (Nat.mod_lt n (by decide))]
      omega

theorem readDigits_reverse (l : List Char) : readDigits l.reverse = leVal l := by
  induction l with
  | nil => rfl
  | cons c t ih =>
    simp only [List.reverse_cons, readDigits, List.foldl_append, List.foldl]
    simp only [readDigits] at ih
    rw [ih]
    rfl

theorem readDigits_natDigits (n : Nat) : readDigits (natDigits n) = n := by
  by_cases hn : n = 0
  · subst hn; decide
  · simp only [natDigits, hn, if_false]
    rw [readDigits_reverse, leVal_natDigitsAux n n (Nat.le_refl n)]

theorem natDigitsAux_all_digits : ∀ (fuel n : Nat), ∀ c ∈ natDigitsAux fuel n, isDigitC c = true
  | 0, _, _, h => by simp [natDigitsAux] at h
  | fuel + 1, n, c, h => by
    by_cases hn : n = 0
    · simp [natDigitsAux, hn] at h
    · simp only [natDigitsAux, hn, if_false, List.mem_cons] at h
      rcases h with h | h
      · subst h; exact isDigitC_digitChar (Nat.mod_lt n (by decide))
      · exact natDigitsAux_all_digits fuel (n / 10) c h

theorem natDigits_all_digits (n : Nat) : ∀ c ∈ natDigits n, isDigitC c = true := by
  intro c hc
  by_cases hn : n = 0
  · subst hn; simp only [natDigits, if_true] at hc
    simp at hc; subst hc; decide
  · simp only [natDigits, hn, if_false, List.mem_reverse] at hc
    exact natDigitsAux_all_digits n n c hc

theorem natDigits_ne_nil (n : Nat) : natDigits n ≠ [] := by
  by_cases hn : n = 0
  · subst hn; simp [natDigits]
  · simp only [natDigits, hn, if_false]
    intro h
    rw [List.reverse_eq_nil_iff] at h
    have := leVal_natDigitsAux n n (Nat.le_refl n)
    rw [h] at this
    simp [leVal] at this
    omega

theorem natDigitsAux_length_le : ∀ (fuel n k : Nat), n < 10 ^ k →
    (natDigitsAux fuel n).length ≤ k
  | 0, _, _, _ => by simp [natDigitsAux]
  | fuel + 1, n, k, h => by
    by_cases hn : n = 0
    · simp [natDigitsAux, hn]
    · have hk : k ≠ 0 := by
        intro hk0; subst hk0; simp at h; omega
      have hdiv : n / 10 < 10 ^ (k - 1) := by
        rw [Nat.div_lt_iff_lt_mul (by decide)]
        calc n < 10 ^ k := h
        _ = 10 ^ (k - 1) * 10 := by
              rw [← Nat.pow_succ]
              congr 1
              omega
      simp only [natDigitsAux, hn, if_false, List.length_cons]
      have := natDigitsAux_length_le fuel (n / 10) (k - 1) hdiv
      omega

theorem natDigits_length_le {n k : Nat} (h : n < 10 ^ k) (hk : 0 < k) :
    (natDigits n).length ≤ k := by
  by_cases hn : n = 0
  · subst hn; simp [natDigits]; omega
  · simp only [natDigits, hn, if_false, List.length_reverse]
    exact natDigitsAux_length_le n n k h

/-! ### Reduction to the canonical decimal representation

`reduce` strips trailing decimal zeros (`2.50` and `2.5` are the same float);
a reduced `Dec` is the canonical representative of its rational value. -/

/-- Strip factors of ten, `fuel`-structured (`fuel ≥ exp` suffices). -/
def reduceF : Nat → Dec → Dec
  | 0, d => d
  | fuel + 1, d =>
    if d.exp ≠ 0 ∧ d.num % 10 = 0 then reduceF fuel ⟨d.num / 10, d.exp - 1⟩ else d

/-- Canonical decimal representative: no trailing zero in the fraction. -/
def reduce (d : Dec) : Dec := reduceF d.exp d

/-- A `Dec` in canonical form. -/
def Reduced (d : Dec) : Prop := d.exp = 0 ∨ d.num % 10 ≠ 0

theorem reduceF_reduced : ∀ (fuel : Nat) (d : Dec), d.exp ≤ fuel → Reduced (reduceF fuel d)
  | 0, d, h => by
    simp only [reduceF]
    left
    omega
  | fuel + 1, d, h => by
    rw [show reduceF (fuel + 1) d =
        (if d.exp ≠ 0 ∧ d.num % 10 = 0 then reduceF fuel ⟨d.num / 10, d.exp - 1⟩ else d) from rfl]
    by_cases hc : d.exp ≠ 0 ∧ d.num % 10 = 0
    · rw [if_pos hc]
      exact reduceF_reduced fuel ⟨d.num / 10, d.exp - 1⟩ (by show d.exp - 1 ≤ fuel; omega)
    · rw [if_neg hc]
      unfold Reduced
      tauto

theorem reduce_reduced (d : Dec) : Reduced (reduce d) :=
  reduceF_reduced d.exp d (Nat.le_refl _)

theorem reduceF_of_reduced : ∀ (fuel : Nat) {d : Dec}, Reduced d → reduceF fuel d = d
  | 0, _, _ => rfl
  | fuel + 1, d, h => by
    have hc : ¬(d.exp ≠ 0 ∧ d.num % 10 = 0) := by
      unfold Reduced at h
      tauto
    rw [show reduceF (fuel + 1) d =
        (if d.exp ≠ 0 ∧ d.num % 10 = 0 then reduceF fuel ⟨d.num / 10, d.exp - 1⟩ else d) from rfl]
    rw [if_neg hc]

theorem reduce_of_reduced {d : Dec} (h : Reduced d) : reduce d = d :=
  reduceF_of_reduced d.exp h

/-! ### Parsing decimal literals (model of CPython `float(s)`) -/

/-- Parse an unsigned decimal literal `digits`, `digits.digits`, `digits.` or
`.digits` into an (unreduced) `Dec`. -/
def parseUnsigned (cs : List Char) : Option Dec :=
  match cs.dropWhile isDigitC with
  | [] =>
    if (cs.takeWhile isDigitC).isEmpty then none
    else some ⟨(readDigits (cs.takeWhile isDigitC) : Int), 0⟩
  | '.' :: r2 =>
    match r2.dropWhile isDigitC with
    | [] =>
      if (cs.takeWhile isDigitC).isEmpty && (r2.takeWhile isDigitC).isEmpty then none
      else some ⟨(readDigits (cs.takeWhile isDigitC) : Int) *
          (10 : Int) ^ (r2.takeWhile isDigitC).length +
          (readDigits (r2.takeWhile isDigitC) : Int), (r2.takeWhile isDigitC).length⟩
    | _ => none
  | _ => none

/-- Parse an optionally signed decimal literal (the fragment of CPython
`float(s)` exercised by the pipeline's own output; CPython additionally
accepts whitespace, exponents, `inf`/`nan` and underscores). -/
def parseDec : List Char → Option Dec
  | [] => parseUnsigned []
  | c :: r =>
    if c = '-' then (parseUnsigned r).map fun d => ⟨-d.num, d.exp⟩
    else if c = '+' then parseUnsigned r
    else parseUnsigned (c :: r)

/-- `float(s)` as a canonical decimal value, `none` on `ValueError`. -/
def floatOfString? (s : String) : Option Dec := (parseDec s.data).map reduce

/-! ### Printing (models of CPython `str(int(x))` and `str(x)`) -/

/-- Decimal string of an integer: CPython `str` of an `int`. -/
def intStr (n : Int) : List Char :=
  if n < 0 then '-' :: natDigits n.natAbs else natDigits n.natAbs

/-- Left-pad with `'0'` to length `k`. -/
def padZeros (k : Nat) (l : List Char) : List Char := List.replicate (k - l.length) '0' ++ l

/-- Digit characters `I.F` of the absolute value of `d` (intended for
`d.exp > 0`): integer part, point, `exp` fraction digits. -/
def decChars (d : Dec) : List Char :=
  natDigits (d.num.natAbs / 10 ^ d.exp) ++ '.' :: padZeros d.exp (natDigits (d.num.natAbs % 10 ^ d.exp))

/-- CPython `str` of a float: canonical decimal form, integers shown as `n.0`. -/
def pyFloatChars (d : Dec) : List Char :=
  let r := reduce d
  if r.exp = 0 then intStr r.num ++ ['.', '0']
  else if r.num < 0 then '-' :: decChars r else decChars r

/-- CPython `str` of a float, as a `String`. -/
def pyFloatStr (d : Dec) : String := ⟨pyFloatChars d⟩

/-- CPython `float.is_integer`: does the value have no fractional part? -/
def isIntDec (d : Dec) : Bool := d.num % (10 : Int) ^ d.exp == 0

/-- CPython `int(x)` on a float with no fractional part (exact). -/
def intOfDec (d : Dec) : Int := d.num / (10 : Int) ^ d.exp

/-- The canonicalization used throughout the pipeline:
`str(int(v)) if v.is_integer() else str(v)`. -/
def canonChars (d : Dec) : List Char :=
  if isIntDec d then intStr (intOfDec d) else pyFloatChars d

/-- `canonChars` as a `String`. -/
def canonStr (d : Dec) : String := ⟨canonChars d⟩

/-- One value of `utils.format_value_map`:
`try: f = float(v); v = str(int(f)) if f.is_integer() else str(f)
except ValueError: pass`. -/
def formatValue (v : String) : String :=
  match floatOfString? v with
  | some d => canonStr d
  | none => v

/-- `str.endswith` (on the char lists underlying the strings). -/
def endsWithC (s suf : String) : Bool := suf.data.isSuffixOf s.data

/-- The body of `format_value_map`'s loop, acting on one `(key, value)` pair:
keys ending in `_sign` or `_abs` are skipped, other values re-serialized. -/
def formatEntry (kv : String × String) : String × String :=
  if endsWithC kv.1 "_sign" || endsWithC kv.1 "_abs" then kv else (kv.1, formatValue kv.2)

/-- `utils.format_value_map` (utils.py lines 32-46): re-serialize every
numeric value of the map, skipping keys that end in `_sign` or `_abs`;
non-numeric values pass through.  The dict is embedded as an association list
(iteration order preserved; the loop only replaces values, never keys). -/
def format_value_map (m : List (String × String)) : List (String × String) :=
  m.map formatEntry

/-! ### Python dict operations

A Python `dict` is embedded as an association list in insertion order:
`d[k] = v` updates the value in place for an existing key and appends a new
entry otherwise; `d.get(k, dflt)` and `d[k]` look up the first (unique)
matching key. -/

/-- `d[k] = v` on a Python dict. -/
def dictInsert {κ α : Type} [BEq κ] (k : κ) (v : α) (m : List (κ × α)) : List (κ × α) :=
  if m.any fun kv => kv.1 == k then
    m.map fun kv => if kv.1 == k then (k, v) else kv
  else m ++ [(k, v)]

/-- `d.get(k)` on a Python dict (`None` when missing). -/
def dictLookup {κ α : Type} [BEq κ] (m : List (κ × α)) (k : κ) : Option α :=
  (m.find? fun kv => kv.1 == k).map fun kv => kv.2

/-- `d.get(k, dflt)` on a Python dict. -/
def dictGetD {κ α : Type} [BEq κ] (m : List (κ × α)) (k : κ) (dflt : α) : α :=
  (dictLookup m k).getD dflt

/-! ### `utils.split_values_to_map` -/

/-- The attributes of a variable that `split_values_to_map` reads. -/
structure SplitVar where
  name : String
  split_sign : Bool

/-- The body of `split_values_to_map`'s loop for one variable whose
`split_sign` flag is set (utils.py lines 4-28): parse the variable's current
value as a float (`ValueError` propagates), canonicalize the base entry,
derive the sign (`"-"` if negative, `"+"` if positive, for zero `"+"` iff
`always_positive_zero`) and the canonicalized absolute value, and store them
under `<name>_sign` / `<name>_abs`. -/
def splitOne (m : List (String × String)) (name : String) (apz : Bool) :
    Except String (List (String × String)) :=
  match floatOfString? (dictGetD m name "0") with
  | none => .error ("ValueError: could not convert string to float: " ++ dictGetD m name "0")
  | some d =>
    let m1 := dictInsert name (canonStr d) m
    let sign := if d.num < 0 then "-" else if 0 < d.num then "+" else if apz then "+" else ""
    let m2 := dictInsert (name ++ "_sign") sign m1
    .ok (dictInsert (name ++ "_abs") (canonStr ⟨(d.num.natAbs : Int), d.exp⟩) m2)

/-- `utils.split_values_to_map` (utils.py lines 1-30): derive `_sign`/`_abs`
companion entries for every variable flagged `split_sign`. -/
def split_values_to_map (m : List (String × String)) (vars : List SplitVar) (apz : Bool) :
    Except String (List (String × String)) :=
  match vars with
  | [] => .ok m
  | v :: rest =>
    if v.split_sign then
      match splitOne m v.name apz with
      | .error e => .error e
      | .ok m1 => split_values_to_map m1 rest apz
    else split_values_to_map m rest apz

/-! ### Decimal arithmetic for the range expansion -/

/-- Exact addition of decimals (align exponents). -/
def addD (a b : Dec) : Dec :=
  ⟨a.num * 10 ^ (max a.exp b.exp - a.exp) + b.num * 10 ^ (max a.exp b.exp - b.exp),
    max a.exp b.exp⟩

/-- Negation of a decimal. -/
def negD (d : Dec) : Dec := ⟨-d.num, d.exp⟩

/-- Exact subtraction of decimals. -/
def subD (a b : Dec) : Dec := addD a (negD b)

/-- Scaling a decimal by an integer. -/
def scaleD (i : Int) (d : Dec) : Dec := ⟨i * d.num, d.exp⟩

/-- Value equality of two decimals (float `==`), by cross-multiplication. -/
def decEqVal (a b : Dec) : Bool := a.num * 10 ^ b.exp == b.num * 10 ^ a.exp

/-- `⌈a / b⌉` for integers with `b > 0`. -/
def ceilQuot (a b : Int) : Int := -((-a).fdiv b)

/-- Round `a / b` (with `b > 0`) to the nearest integer, ties to even (the
rounding of CPython's `round`). -/
def roundHalfEvenInt (a b : Int) : Int :=
  if 2 * (a - a.fdiv b * b) < b then a.fdiv b
  else if b < 2 * (a - a.fdiv b * b) then a.fdiv b + 1
  else if a.fdiv b % 2 = 0 then a.fdiv b else a.fdiv b + 1

/-- `round(x, 4)`: round to four decimal places (modelled exactly on the
decimal value; the binary-float argument of the source carries the same
value on the decimal fragment modelled here). -/
def round4 (d : Dec) : Dec := ⟨roundHalfEvenInt (d.num * 10 ^ 4) (10 ^ d.exp), 4⟩

/-- `np.arange(start, stop, step)` for positive `step`: the values
`start + i * step` for `0 ≤ i < ⌈(stop - start) / step⌉` (the source only
uses positive steps). -/
def arangeD (start stop step : Dec) : List Dec :=
  if 0 < step.num then
    (List.range (Int.toNat (ceilQuot ((subD stop start).num * 10 ^ step.exp)
      (step.num * 10 ^ (subD stop start).exp)))).map
      fun i => addD start (scaleD (i : Int) step)
  else []

/-- Candidate generation for a ranged variable (views.py lines 452-457):
`np.arange(min_value, max_value + step, step)`, dropping values present in
`without_value` (float equality), each rendered as `str(round(var, 4))` —
`str` of a `numpy` float64, so integral values render with a trailing `.0`. -/
def rangeChoices (mn mx st : Dec) (excl : List Dec) : List String :=
  (arangeD mn (addD mx st) st).filterMap fun v =>
    if excl.any fun w => decEqVal w v then none
    else some (pyFloatStr (round4 v))

/-! ### `StartIssueView.randomize_variables` -/

/-- The attributes of `models.Variable` the randomizer reads, plus the two
attributes (`unique_group`, `without_value`) that views.py reads through
`getattr` with a default — `models.Variable` does not declare them, so on the
shipped model they always take the default (`None` / `[]`); they are modelled
as the optional values those `getattr` calls produce. -/
structure PyVariable where
  id : Nat
  name : String
  original_value : String
  choices : List String
  min_value : Dec
  max_value : Dec
  step : Dec
  without_value : List Dec
  unique_group : Option String
deriving DecidableEq

/-- The candidate set of one variable (views.py lines 448-458): the explicit
`choices` list when non-empty (Python truthiness), else the expanded range. -/
def computeChoices (v : PyVariable) : List String :=
  if v.choices.isEmpty then rangeChoices v.min_value v.max_value v.step v.without_value
  else v.choices

/-- `choices_dict`: the candidate set per variable id. -/
def choicesDict (vars : List PyVariable) : List (Nat × List String) :=
  vars.foldl (fun d v => dictInsert v.id (computeChoices v) d) []

/-- `random.choice(seq)`: the ambient random source is modelled as a stream
of naturals; each call consumes one number `n` and picks `seq[n % len(seq)]`
(an arbitrary in-range index).  An empty sequence raises `IndexError`. -/
def pyChoice (l : List String) (s : List Nat) : Except String (String × List Nat) :=
  if l.isEmpty then .error "IndexError: Cannot choose from an empty sequence"
  else .ok (l.getD (s.headD 0 % l.length) "", s.tail)

/-- `groups[group].append(variable)` on the `defaultdict(list)`. -/
def groupAppend (g : String) (v : PyVariable) (gs : List (String × List PyVariable)) :
    List (String × List PyVariable) :=
  if gs.any fun p => p.1 == g then
    gs.map fun p => if p.1 == g then (p.1, p.2 ++ [v]) else p
  else gs ++ [(g, [v])]

/-- First loop of `randomize_variables` (views.py lines 460-467): ungrouped
variables get an immediate uniform choice recorded in the assignment dict;
grouped variables are collected into `groups` in order of appearance.
(`choices_dict[variable.id]` is looked up with default `[]`; the dict is
built for every variable, and an empty candidate list surfaces as the same
`IndexError` the source would raise.) -/
def phase1 : List PyVariable → List (Nat × List String) → List (Nat × String) →
    List (String × List PyVariable) → List Nat →
    Except String (List (Nat × String) × List (String × List PyVariable) × List Nat)
  | [], _, asn, gs, s => .ok (asn, gs, s)
  | v :: rest, cd, asn, gs, s =>
    match v.unique_group with
    | some g => phase1 rest cd asn (groupAppend g v gs) s
    | none =>
      match pyChoice (dictGetD cd v.id []) s with
      | .error e => .error e
      | .ok (val, s1) => phase1 rest cd (dictInsert v.id val asn) gs s1

/-- One attempt of the uniqueness-group loop: draw one choice per member
variable into the fresh `values` dict. -/
def drawOnce : List PyVariable → List (Nat × List String) → List (Nat × String) → List Nat →
    Except String (List (Nat × String) × List Nat)
  | [], _, vals, s => .ok (vals, s)
  | v :: rest, cd, vals, s =>
    match pyChoice (dictGetD cd v.id []) s with
    | .error e => .error e
    | .ok (c, s1) => drawOnce rest cd (dictInsert v.id c vals) s1

/-- The message of the exception raised when a group exhausts its attempts
(views.py line 485); it names the offending group. -/
def groupMsg (g : String) : String :=
  "Nie można wygenerować unikalnych wartości dla grupy zmiennych: " ++ g

/-- The rejection-sampling loop for one uniqueness group (views.py lines
469-485), with the remaining attempts as explicit fuel (the view runs it with
`max_attempts = 1000`); the distinctness test is
`len(set(values.values())) == len(values)`.  On success the number of
attempts used is also returned. -/
def groupLoop : Nat → String → List PyVariable → List (Nat × List String) → List Nat →
    Except String (List (Nat × String) × List Nat × Nat)
  | 0, g, _, _, _ => .error (groupMsg g)
  | fuel + 1, g, mems, cd, s =>
    match drawOnce mems cd [] s with
    | .error e => .error e
    | .ok (vals, s1) =>
      if (vals.map fun kv => kv.2).Nodup then .ok (vals, s1, 1)
      else
        match groupLoop fuel g mems cd s1 with
        | .error e => .error e
        | .ok (vals2, s2, k) => .ok (vals2, s2, k + 1)

/-- After a successful group draw,
`variable.original_value = values[variable.id]` for each member (the draw
covers every member, so the lookup always succeeds). -/
def mergeAsn (asn : List (Nat × String)) (vals : List (Nat × String))
    (mems : List PyVariable) : List (Nat × String) :=
  mems.foldl (fun a m =>
    match dictLookup vals m.id with
    | some val => dictInsert m.id val a
    | none => a) asn

/-- Second loop of `randomize_variables` (views.py lines 469-485): process
each uniqueness group in order of first appearance. -/
def processGroups : List (String × List PyVariable) → List (Nat × List String) →
    List (Nat × String) → List Nat → Except String (List (Nat × String) × List Nat)
  | [], _, asn, s => .ok (asn, s)
  | (g, mems) :: rest, cd, asn, s =>
    match groupLoop 1000 g mems cd s with
    | .error e => .error e
    | .ok (vals, s1, _) => processGroups rest cd (mergeAsn asn vals mems) s1

/-- Write the drawn assignment back into `original_value`. -/
def applyAsn (vars : List PyVariable) (asn : List (Nat × String)) : List PyVariable :=
  vars.map fun v =>
    match dictLookup asn v.id with
    | some val =>
      ⟨v.id, v.name, val, v.choices, v.min_value, v.max_value, v.step, v.without_value,
        v.unique_group⟩
    | none => v

/-- The member list of group `g` in the collected `groups` dict. -/
def groupMembers (g : String) (gs : List (String × List PyVariable)) : List PyVariable :=
  match gs.find? fun p => p.1 == g with
  | some p => p.2
  | none => []

/-- `StartIssueView.randomize_variables` (views.py lines 445-486): compute
candidate sets, draw ungrouped variables independently, enforce pairwise
distinctness per uniqueness group with at most 1000 attempts per group, and
return the variables with `original_value` overwritten. -/
def randomize_variables (vars : List PyVariable) (s : List Nat) :
    Except String (List PyVariable × List Nat) :=
  match phase1 vars (choicesDict vars) [] [] s with
  | .error e => .error e
  | .ok (asn1, gs, s1) =>
    match processGroups gs (choicesDict vars) asn1 s1 with
    | .error e => .error e
    | .ok (asn2, s2) => .ok (applyAsn vars asn2, s2)

/-- A concrete grouped variable (id 1, choices `1..3`, group `g`) used to
instantiate general statements. -/
def wVarA : PyVariable := ⟨1, "a", "1", ["1", "2", "3"], ⟨0, 0⟩, ⟨0, 0⟩, ⟨1, 0⟩, [], some "g"⟩

/-- A second concrete grouped variable sharing `wVarA`'s choices and group. -/
def wVarB : PyVariable := ⟨2, "b", "1", ["1", "2", "3"], ⟨0, 0⟩, ⟨0, 0⟩, ⟨1, 0⟩, [], some "g"⟩

/-- `wVarB` after the draw that assigns it `"2"`. -/
def wVarB2 : PyVariable := ⟨2, "b", "2", ["1", "2", "3"], ⟨0, 0⟩, ⟨0, 0⟩, ⟨1, 0⟩, [], some "g"⟩

/-! ### Django template rendering (collaborator model), shuffle, and the
answer-option builder -/

/-- Split a character list at the first closing `}}`: the name characters
before it and the remainder after it. -/
def splitCloser : List Char → List Char × List Char
  | [] => ([], [])
  | '}' :: '}' :: rest => ([], rest)
  | c :: rest => (c :: (splitCloser rest).1, (splitCloser rest).2)

/-- Strip leading and trailing spaces. -/
def trimChars (l : List Char) : List Char :=
  ((l.dropWhile fun c => c == ' ').reverse.dropWhile fun c => c == ' ').reverse

/-- Render a Django template against a string context: a `\x7b\x7b name \x7d\x7d`
placeholder becomes the value of the trimmed name (empty when absent, the
`string_if_invalid` default); all other text passes through.  Modelled for
the variable-placeholder fragment the task contents use; fuel-structured on
the character count. -/
def renderT (ctx : List (String × String)) : Nat → List Char → List Char
  | 0, _ => []
  | _ + 1, [] => []
  | fuel + 1, c :: rest =>
    if c = '{' then
      match rest with
      | c2 :: rest2 =>
        if c2 = '{' then
          ((dictLookup ctx (⟨trimChars (splitCloser rest2).1⟩ : String)).getD "").data ++
            renderT ctx fuel (splitCloser rest2).2
        else c :: renderT ctx fuel rest
      | [] => [c]
    else c :: renderT ctx fuel rest

/-- `Template(text).render(Context(ctx))`. -/
def djangoRender (tmpl : String) (ctx : List (String × String)) : String :=
  ⟨renderT ctx tmpl.data.length tmpl.data⟩

/-- Swap two positions of a list. -/
def listSwap {α : Type} (l : List α) (i j : Nat) : List α :=
  match l[i]?, l[j]? with
  | some a, some b => (l.set i b).set j a
  | _, _ => l

/-- The loop of `random.shuffle` (Fisher-Yates): for `i` from `len-1` down to
`1`, draw `j = _randbelow(i+1)` — modelled as the next stream value reduced
mod `i+1` — and swap positions `i` and `j`. -/
def shuffleGo {α : Type} : List α → List Nat → Nat → List α
  | l, _, 0 => l
  | l, s, i + 1 => shuffleGo (listSwap l (i + 1) (s.headD 0 % (i + 2))) s.tail i

/-- `random.shuffle`. -/
def pyShuffle {α : Type} (l : List α) (s : List Nat) : List α :=
  shuffleGo l s (l.length - 1)

/-- A sympy numeric substitution value:
`int(float(v)) if float(v).is_integer() else float(v)`. -/
inductive PyNum
  | int (n : Int)
  | float (d : Dec)
deriving DecidableEq

/-- A row of `models.AnswerOption` (models.py lines 221-236). -/
structure AnswerOptRow where
  id : Nat
  task : Nat
  content : String
  is_correct : Bool
  display_format : String
deriving DecidableEq

/-- One presentable answer option as built by the view. -/
structure OptOut where
  id : Nat
  content : String
  is_correct : Bool
  format : String
deriving DecidableEq

/-- `StartIssueView.build_answer_options` (views.py lines 424-443): for every
option — regardless of `display_format` — the option's `content` string is
rendered as a Django template against the string value map (the `solution`
local `value_map.get(opt.content)` is computed and discarded, and the
`solutions_map` / `substitutions` parameters are not used by the body); the
resulting records are then shuffled in place. -/
def build_answer_options (answer_options_db : List AnswerOptRow)
    (_solutions_map : List (String × String)) (value_map : List (String × String))
    (_substitutions : List (String × PyNum)) (shuffleStream : List Nat) : List OptOut :=
  pyShuffle (answer_options_db.map fun opt =>
    ⟨opt.id, djangoRender opt.content value_map, opt.is_correct, opt.display_format⟩)
    shuffleStream

/-! ### The Issue orchestrator: fresh creation and resume -/

/-- A Python value passed as a Django model kwarg. -/
inductive PyVal
  | none
  | str (s : String)
  | obj (tag : String) (id : Nat)
deriving DecidableEq

/-- The keyword arguments `UsedVariable(...)` accepts: the declared fields of
`models.UsedVariable` (models.py lines 201-219: `task`, `issue`, `variable`,
`variable_name`, `variable_value`), their FK attnames, and the implicit
`id`.  There is no `additional_variable` field; Django's `Model.__init__`
raises `TypeError` for an unexpected keyword. -/
def usedVariableKwargNames : List String :=
  ["id", "task", "task_id", "issue", "issue_id", "variable", "variable_id",
   "variable_name", "variable_value"]

/-- A persisted `UsedVariable` row (the fields the pipeline reads back). -/
structure UsedVarRow where
  variable_name : String
  variable_value : String
deriving DecidableEq

/-- `UsedVariable.objects.create(**kwargs)`. -/
def usedVariableCreate (kwargs : List (String × PyVal)) : Except String UsedVarRow :=
  if kwargs.all fun kv => usedVariableKwargNames.contains kv.1 then
    .ok ⟨(match kwargs.find? fun kv => kv.1 == "variable_name" with
          | some kv => match kv.2 with | .str s => s | _ => ""
          | _ => ""),
         (match kwargs.find? fun kv => kv.1 == "variable_value" with
          | some kv => match kv.2 with | .str s => s | _ => ""
          | _ => "")⟩
  else .error "TypeError: UsedVariable() got unexpected keyword arguments"

/-- Attribute access on a `UsedVariable` instance: only the model's fields
exist; in particular `split_map` is not among them, so reading it raises
`AttributeError`. -/
def usedVariableGetattr (r : UsedVarRow) (attr : String) : Except String String :=
  if attr = "variable_name" then .ok r.variable_name
  else if attr = "variable_value" then .ok r.variable_value
  else .error ("AttributeError: 'UsedVariable' object has no attribute '" ++ attr ++ "'")

/-- A row of `models.AdditionalVariable`. -/
structure AddVarRow where
  id : Nat
  name : String
  formula : String
deriving DecidableEq

/-- The parts of a `models.Task` the orchestrator reads. -/
structure PyTask where
  id : Nat
  content : String
  vars' : List PyVariable
  additional_variables : List AddVarRow
  answer_options : List AnswerOptRow

/-- Build the numeric substitution map
`\x7bsymbols[k]: int(float(v)) if float(v).is_integer() else float(v) ...\x7d`
from the non-`_sign`/`_abs` entries; `float(v)` raises `ValueError` on a
non-numeric value (uncaught in the source). -/
def buildSubstitutions (value_map : List (String × String)) :
    Except String (List (String × PyNum)) :=
  (value_map.filter fun kv => !(endsWithC kv.1 "_sign") && !(endsWithC kv.1 "_abs")).foldlM
    (fun acc kv =>
      match floatOfString? kv.2 with
      | some d => .ok (acc ++
          [(kv.1, if isIntDec d then PyNum.int (intOfDec d) else PyNum.float d)])
      | none => .error ("ValueError: could not convert string to float: " ++ kv.2)) []

/-- The `for used in used_variables: split = used.split_map ...` loops of
views.py (lines 273-277, 333-337, 407-411): reading `split_map` raises
`AttributeError` on the first row, so the body that would copy
`split['sign']` / `split['abs']` into the map is unreachable. -/
def splitMapLoop (rows : List UsedVarRow) (value_map : List (String × String)) :
    Except String (List (String × String)) :=
  rows.foldlM (fun m r => do
    let _split ← usedVariableGetattr r "split_map"
    .ok m) value_map

/-- The resume branch of `StartIssueView.get` (views.py lines 270-288), run
when the session's issue belongs to the requested task: rebuild the value
map from the persisted `UsedVariable` rows, read `used.split_map` for every
row, format the map, build the numeric substitutions, and render the answer
options.  The randomizer is not part of this path at all. -/
def resumeIssue (rows : List UsedVarRow) (answer_options_db : List AnswerOptRow)
    (shuffleStream : List Nat) :
    Except String (List (String × String) × List OptOut) := do
  let value_map := rows.foldl (fun m r => dictInsert r.variable_name r.variable_value m) []
  let vm2 ← splitMapLoop rows value_map
  let vm3 := format_value_map vm2
  let substitutions ← buildSubstitutions vm3
  .ok (vm3, build_answer_options answer_options_db [] vm3 substitutions shuffleStream)

/-- The per-variable body of the fresh-creation loop (views.py lines
308-329): canonicalize the parsed value for the value map (raw string on
`ValueError`), then persist through
`UsedVariable.objects.create(..., additional_variable=None, ...)` — a
keyword the model does not declare. -/
def varLoop (taskId issueId : Nat) :
    List PyVariable → List (String × String) →
    Except String (List (String × String) × List UsedVarRow)
  | [], value_map => .ok (value_map, [])
  | var :: rest, value_map => do
    let vf := match floatOfString? var.original_value with
      | some d => (pyFloatStr d, canonStr d)
      | none => (var.original_value, var.original_value)
    let value_map2 := dictInsert var.name vf.2 value_map
    let used ← usedVariableCreate
      [("task", .obj "Task" taskId), ("issue", .obj "Issue" issueId),
       ("variable", .obj "Variable" var.id), ("additional_variable", PyVal.none),
       ("variable_name", .str var.name), ("variable_value", .str vf.1)]
    let pr ← varLoop taskId issueId rest value_map2
    .ok (pr.1, used :: pr.2)

/-- The per-additional-variable body of `build_solutions_map` (views.py
lines 366-405), parameterized by the sympy collaborator
(`sympify(formula).subs(string_map)` then `N`): round the result to four
decimals, canonicalize it into the value map, and persist through
`UsedVariable.objects.create(..., additional_variable=add_var, ...)` — a
keyword the model does not declare (the subsequent
`used_variable.split_sign = add_var.split_sign` and
`save(update_fields=['split_values'])` lines reference further undeclared
attributes and are unreachable). -/
def solutionsLoop (sympyEval : String → List (String × String) → Except String Dec)
    (taskId issueId : Nat) :
    List AddVarRow → List (String × String) →
    Except String (List (String × String) × List UsedVarRow)
  | [], value_map => .ok (value_map, [])
  | add_var :: rest, value_map => do
    let numerical := value_map.filter fun kv =>
      !(endsWithC kv.1 "_sign") && !(endsWithC kv.1 "_abs")
    let evaluated ← sympyEval add_var.formula numerical
    let numeric_result := round4 evaluated
    let value_map2 := dictInsert add_var.name (canonStr numeric_result) value_map
    let used ← usedVariableCreate
      [("task", .obj "Task" taskId), ("issue", .obj "Issue" issueId),
       ("variable", PyVal.none), ("additional_variable", .obj "AdditionalVariable" add_var.id),
       ("variable_name", .str add_var.name),
       ("variable_value", .str (pyFloatStr numeric_result))]
    let pr ← solutionsLoop sympyEval taskId issueId rest value_map2
    .ok (pr.1, used :: pr.2)

/-- `StartIssueView.build_solutions_map` (views.py lines 364-421). -/
def build_solutions_map (sympyEval : String → List (String × String) → Except String Dec)
    (taskId issueId : Nat) (additional_variables : List AddVarRow)
    (value_map : List (String × String)) :
    Except String (List (String × String) × List (String × PyNum)) := do
  let pr ← solutionsLoop sympyEval taskId issueId additional_variables value_map
  let vm2 ← splitMapLoop pr.2 pr.1
  let vm3 := format_value_map vm2
  let substitutions ← buildSubstitutions vm3
  .ok (vm3, substitutions)

/-- The fresh-creation branch of `StartIssueView.get` (views.py lines
292-353): create the Issue, randomize the task's variables when requested,
persist one `UsedVariable` per base variable, derive splits, format,
evaluate additional variables, rebuild the substitutions, build the answer
options, and render the description. -/
def startIssueCreate (sympyEval : String → List (String × String) → Except String Dec)
    (task : PyTask) (random_param : Bool) (rs : List Nat) (shuffleStream : List Nat) :
    Except String (String × List (String × String) × List OptOut) := do
  let issueId := 1
  let vpr ← if random_param then randomize_variables task.vars' rs
    else .ok (task.vars', rs)
  let pr ← varLoop task.id issueId vpr.1 []
  let vm2 ← splitMapLoop pr.2 pr.1
  let vm3 := format_value_map vm2
  let spr ← build_solutions_map sympyEval task.id issueId task.additional_variables vm3
  let substitutions ← buildSubstitutions spr.1
  let answer_options := build_answer_options task.answer_options [] spr.1 substitutions
    shuffleStream
  .ok (djangoRender task.content spr.1, spr.1, answer_options)

/-! ### Grading (`AnswerResultView.get`) -/

/-- A `models.UserAnswer` row: the selected option ids, the hint flag, and
whether the grading path explicitly stamped `answer_date`. -/
structure UserAnswerRow where
  user : Option Nat
  issue : Nat
  answer_options : List Nat
  used_hint : Bool
  answer_date_written : Bool
deriving DecidableEq

/-- `UserAnswer.objects.get_or_create(user=..., issue=...)`: the first
matching row, or a freshly appended row with field defaults. -/
def getOrCreateUA (db : List UserAnswerRow) (u : Option Nat) (i : Nat) :
    UserAnswerRow × Bool × List UserAnswerRow :=
  match db.find? fun r => r.user == u && r.issue == i with
  | some r => (r, false, db)
  | Option.none => (⟨u, i, [], false, false⟩, true, db ++ [⟨u, i, [], false, false⟩])

/-- The outcome of the grading segment: an error page or a graded answer. -/
inductive GradeOutcome
  | errorPage (msg : String)
  | graded (selectedId : Nat) (is_correct : Bool)
deriving DecidableEq

/-- One step of scanning for the row with the smallest primary key. -/
def qsStep (acc : Option AnswerOptRow) (r : AnswerOptRow) : Option AnswerOptRow :=
  match acc with
  | Option.none => some r
  | some m => if r.id < m.id then some r else some m

/-- Django `.first()` on an unordered queryset: the row with the smallest
primary key (an unordered queryset is implicitly ordered by pk). -/
def qsFirst (l : List AnswerOptRow) : Option AnswerOptRow :=
  l.foldl qsStep Option.none

/-- `AnswerOption.objects.filter(task=task, is_correct=True).first()`
(views.py line 599). -/
def correct_answer (table : List AnswerOptRow) (taskId : Nat) : Option AnswerOptRow :=
  qsFirst (table.filter fun r => r.task == taskId && r.is_correct)

/-- The validation-and-grading segment of `AnswerResultView.get` (views.py
lines 571-600): `get_or_create` the `UserAnswer` BEFORE any validation; a
missing selection or an unknown option id renders an error page (the blank
row possibly just created stays); otherwise stamp `answer_date`, attach the
selection to the (unique) matching row, and compare the selected option with
the task's first correct option — Django `==` on models is same class and
same primary key. -/
def answerResultValidate (db : List UserAnswerRow) (table : List AnswerOptRow)
    (u : Option Nat) (issue : Nat) (taskId : Nat) (selected : Option Nat) :
    GradeOutcome × List UserAnswerRow :=
  let goc := getOrCreateUA db u issue
  match selected with
  | Option.none => (.errorPage "Musisz zaznaczyć odpowiedź przed wysłaniem!", goc.2.2)
  | some sid =>
    match table.find? fun r => r.id == sid with
    | Option.none => (.errorPage "Wybrana odpowiedź nie istnieje!", goc.2.2)
    | some _sel =>
      let db2 := goc.2.2.map fun r =>
        if r.user == u && r.issue == issue then
          ⟨r.user, r.issue, [sid], r.used_hint, true⟩
        else r
      (.graded sid (match correct_answer table taskId with
        | some c => sid == c.id
        | Option.none => false), db2)

/-! ### Round-trip lemmas: parsing back the canonical output -/

theorem takeWhile_append_all (p : Char → Bool) (l r : List Char)
    (hl : ∀ c ∈ l, p c = true) (hr : ∀ x t, r = x :: t → p x = false) :
    (l ++ r).takeWhile p = l ∧ (l ++ r).dropWhile p = r := by
  induction l with
  | nil =>
    simp only [List.nil_append]
    cases r with
    | nil => simp
    | cons x t =>
      have hx := hr x t rfl
      simp [List.takeWhile_cons, List.dropWhile_cons, hx]
  | cons c cl ih =>
    have hc := hl c (List.mem_cons_self c cl)
    have ihr := ih fun x hx => hl x (List.mem_cons_of_mem c hx)
    simp only [List.cons_append, List.takeWhile_cons, List.dropWhile_cons, hc, if_true]
    simp [ihr.1, ihr.2]

theorem readDigits_cons_zero (l : List Char) : readDigits ('0' :: l) = readDigits l := rfl

theorem readDigits_replicate (j : Nat) (l : List Char) :
    readDigits (List.replicate j '0' ++ l) = readDigits l := by
  induction j with
  | zero => rfl
  | succ j ih => rw [List.replicate_succ, List.cons_append, readDigits_cons_zero, ih]

theorem readDigits_padZeros (k : Nat) (l : List Char) :
    readDigits (padZeros k l) = readDigits l := readDigits_replicate _ l

theorem padZeros_length {k : Nat} {l : List Char} (h : l.length ≤ k) :
    (padZeros k l).length = k := by
  simp only [padZeros, List.length_append, List.length_replicate]
  omega

theorem padZeros_all_digits {k : Nat} {l : List Char} (h : ∀ c ∈ l, isDigitC c = true) :
    ∀ c ∈ padZeros k l, isDigitC c = true := by
  intro c hc
  simp only [padZeros, List.mem_append, List.mem_replicate] at hc
  rcases hc with ⟨_, rfl⟩ | hc
  · decide
  · exact h c hc

theorem isEmpty_natDigits (n : Nat) : (natDigits n).isEmpty = false := by
  cases h : natDigits n with
  | nil => exact absurd h (natDigits_ne_nil n)
  | cons c t => rfl

theorem parseUnsigned_natDigits (n : Nat) :
    parseUnsigned (natDigits n) = some ⟨(n : Int), 0⟩ := by
  have h := takeWhile_append_all isDigitC (natDigits n) [] (natDigits_all_digits n)
    (fun x t ht => by simp at ht)
  rw [List.append_nil] at h
  unfold parseUnsigned
  simp only [h.1, h.2, isEmpty_natDigits n, Bool.false_eq_true, if_false, readDigits_natDigits]

theorem parseUnsigned_decimal (q m e : Nat) (he : 0 < e) (hm : m < 10 ^ e) :
    parseUnsigned (natDigits q ++ '.' :: padZeros e (natDigits m)) =
      some ⟨(q : Int) * (10 : Int) ^ e + (m : Int), e⟩ := by
  have hsplit := takeWhile_append_all isDigitC (natDigits q)
    ('.' :: padZeros e (natDigits m)) (natDigits_all_digits q)
    (fun x t ht => by injection ht with hx _; subst hx; decide)
  have hfrac := takeWhile_append_all isDigitC (padZeros e (natDigits m)) []
    (padZeros_all_digits (natDigits_all_digits m)) (fun x t ht => by simp at ht)
  rw [List.append_nil] at hfrac
  have hlen : (padZeros e (natDigits m)).length = e :=
    padZeros_length (natDigits_length_le hm he)
  unfold parseUnsigned
  simp only [hsplit.1, hsplit.2, hfrac.1, hfrac.2, isEmpty_natDigits q, Bool.false_and,
    Bool.false_eq_true, if_false, hlen, readDigits_padZeros, readDigits_natDigits]

theorem parseDec_digit_head {c : Char} {t : List Char} (hc : isDigitC c = true) :
    parseDec (c :: t) = parseUnsigned (c :: t) := by
  have h1 : c ≠ '-' := fun h => by subst h; exact absurd hc (by decide)
  have h2 : c ≠ '+' := fun h => by subst h; exact absurd hc (by decide)
  simp [parseDec, h1, h2]

theorem parseDec_neg_cons (l : List Char) :
    parseDec ('-' :: l) = (parseUnsigned l).map fun d => (⟨-d.num, d.exp⟩ : Dec) := by
  simp [parseDec]

theorem parseDec_natDigits_append (n : Nat) (r : List Char) :
    parseDec (natDigits n ++ r) = parseUnsigned (natDigits n ++ r) := by
  cases h : natDigits n with
  | nil => exact absurd h (natDigits_ne_nil n)
  | cons c t =>
    have hc : isDigitC c = true := by
      apply natDigits_all_digits n
      rw [h]
      exact List.mem_cons_self c t
    rw [List.cons_append, parseDec_digit_head hc]

theorem parseDec_intStr (n : Int) : parseDec (intStr n) = some ⟨n, 0⟩ := by
  by_cases hn : n < 0
  · simp only [intStr, hn, if_true]
    rw [parseDec_neg_cons, parseUnsigned_natDigits]
    show (some (⟨-((n.natAbs : Int)), 0⟩ : Dec) : Option Dec) = some ⟨n, 0⟩
    have h3 : -((n.natAbs : Int)) = n := by omega
    rw [h3]
  · simp only [intStr, hn, if_false]
    have h2 := parseDec_natDigits_append n.natAbs []
    rw [List.append_nil] at h2
    rw [h2, parseUnsigned_natDigits]
    have h3 : ((n.natAbs : Int)) = n := by omega
    rw [h3]

theorem isIntDec_exp_zero {d : Dec} (hd : Reduced d) (hi : isIntDec d = true) : d.exp = 0 := by
  rcases hd with h | h
  · exact h
  · by_contra hexp
    apply h
    have hmod : d.num % (10 : Int) ^ d.exp = 0 := by simpa [isIntDec] using hi
    have hdvd : (10 : Int) ^ d.exp ∣ d.num := Int.dvd_of_emod_eq_zero hmod
    have h10 : (10 : Int) ∣ d.num := dvd_trans (dvd_pow_self 10 hexp) hdvd
    exact Int.emod_eq_zero_of_dvd h10

theorem isIntDec_of_exp_zero {d : Dec} (h : d.exp = 0) : isIntDec d = true := by
  simp [isIntDec, h, Int.emod_one]

theorem decChars_mk (num : Int) (e : Nat) :
    decChars ⟨num, e⟩ =
      natDigits (num.natAbs / 10 ^ e) ++ '.' :: padZeros e (natDigits (num.natAbs % 10 ^ e)) := rfl

theorem pyFloatChars_reduced {d : Dec} (hd : Reduced d) :
    pyFloatChars d =
      (if d.exp = 0 then intStr d.num ++ ['.', '0']
       else if d.num < 0 then '-' :: decChars d else decChars d) := by
  unfold pyFloatChars
  rw [reduce_of_reduced hd]

theorem parseDec_canonChars {d : Dec} (hd : Reduced d) : parseDec (canonChars d) = some d := by
  obtain ⟨num, e⟩ := d
  by_cases hi : isIntDec ⟨num, e⟩ = true
  · have he : e = 0 := isIntDec_exp_zero hd hi
    subst he
    have hdiv : intOfDec ⟨num, 0⟩ = num := by simp [intOfDec]
    simp only [canonChars, hi, if_true, hdiv]
    exact parseDec_intStr num
  · have he : e ≠ 0 := fun h => hi (isIntDec_of_exp_zero h)
    have hm : num.natAbs % 10 ^ e < 10 ^ e := Nat.mod_lt _ (Nat.pos_pow_of_pos e (by decide))
    have hvalN : num.natAbs / 10 ^ e * 10 ^ e + num.natAbs % 10 ^ e = num.natAbs :=
      Nat.div_add_mod' num.natAbs (10 ^ e)
    have hval : ((num.natAbs / 10 ^ e : Nat) : Int) * (10 : Int) ^ e +
        ((num.natAbs % 10 ^ e : Nat) : Int) = (num.natAbs : Int) := by
      exact_mod_cast hvalN
    unfold canonChars
    rw [if_neg hi, pyFloatChars_reduced hd]
    simp only [show (⟨num, e⟩ : Dec).num = num from rfl, show (⟨num, e⟩ : Dec).exp = e from rfl]
    rw [if_neg he]
    by_cases hneg : num < 0
    · rw [if_pos hneg, parseDec_neg_cons, decChars_mk,
        parseUnsigned_decimal (num.natAbs / 10 ^ e) (num.natAbs % 10 ^ e) e
          (Nat.pos_of_ne_zero he) hm]
      show (some (⟨-(((num.natAbs / 10 ^ e : Nat) : Int) * (10 : Int) ^ e +
          ((num.natAbs % 10 ^ e : Nat) : Int)), e⟩ : Dec) : Option Dec) = some ⟨num, e⟩
      rw [hval]
      have h3 : -((num.natAbs : Int)) = num := by omega
      rw [h3]
    · rw [if_neg hneg, decChars_mk, parseDec_natDigits_append,
        parseUnsigned_decimal (num.natAbs / 10 ^ e) (num.natAbs % 10 ^ e) e
          (Nat.pos_of_ne_zero he) hm]
      rw [hval]
      have h3 : ((num.natAbs : Int)) = num := by omega
      rw [h3]

theorem floatOfString_canonStr {d : Dec} (hd : Reduced d) :
    floatOfString? (canonStr d) = some d := by
  have hdata : (canonStr d).data = canonChars d := rfl
  unfold floatOfString?
  rw [hdata, parseDec_canonChars hd]
  simp [reduce_of_reduced hd]

theorem reduced_of_floatOfString {v : String} {d : Dec} (h : floatOfString? v = some d) :
    Reduced d := by
  unfold floatOfString? at h
  cases hp : parseDec v.data with
  | none => rw [hp] at h; simp at h
  | some d0 =>
    rw [hp] at h
    rw [show Option.map reduce (some d0) = some (reduce d0) from rfl] at h
    rw [← Option.some.inj h]
    exact reduce_reduced d0

theorem formatValue_idem (v : String) : formatValue (formatValue v) = formatValue v := by
  cases hv : floatOfString? v with
  | none => simp [formatValue, hv]
  | some d =>
    have hred : Reduced d := reduced_of_floatOfString hv
    simp [formatValue, hv, floatOfString_canonStr hred]

theorem formatEntry_idem (kv : String × String) : formatEntry (formatEntry kv) = formatEntry kv := by
  obtain ⟨k, v⟩ := kv
  unfold formatEntry
  by_cases hs : (endsWithC k "_sign" || endsWithC k "_abs") = true
  · dsimp only
    rw [if_pos hs]
    dsimp only
    rw [if_pos hs]
  · dsimp only
    rw [if_neg hs]
    dsimp only
    rw [if_neg hs, formatValue_idem]

theorem format_value_map_idem (m : List (String × String)) :
    format_value_map (format_value_map m) = format_value_map m := by
  unfold format_value_map
  rw [List.map_map]
  induction m with
  | nil => rfl
  | cons kv rest ih =>
    simp only [List.map_cons, Function.comp_apply, formatEntry_idem, ih]

/-! ### Dict lemmas -/

theorem dictLookup_cons_self {κ α : Type} [BEq κ] [LawfulBEq κ] (k : κ) (v : α) (m : List (κ × α)) :
    dictLookup ((k, v) :: m) k = some v := by
  unfold dictLookup
  rw [List.find?_cons_of_pos _ (by simp)]
  rfl

theorem dictLookup_cons_ne {κ α : Type} [BEq κ] (kv : κ × α) (m : List (κ × α)) (k : κ)
    (h : (kv.1 == k) = false) : dictLookup (kv :: m) k = dictLookup m k := by
  unfold dictLookup
  rw [List.find?_cons_of_neg _ (by simp [h])]

theorem dictLookup_mapUpdate_self {κ α : Type} [BEq κ] [LawfulBEq κ] (m : List (κ × α))
    (k : κ) (v : α) (hmem : (m.any fun kv => kv.1 == k) = true) :
    dictLookup (m.map fun kv => if kv.1 == k then (k, v) else kv) k = some v := by
  induction m with
  | nil => simp at hmem
  | cons kv rest ih =>
    by_cases hk : (kv.1 == k) = true
    · rw [List.map_cons, if_pos hk]
      exact dictLookup_cons_self k v _
    · have hmem2 : (rest.any fun kv => kv.1 == k) = true := by
        simp only [List.any_cons] at hmem
        simpa [hk] using hmem
      rw [List.map_cons, if_neg hk]
      rw [dictLookup_cons_ne kv _ k (by simpa using hk)]
      exact ih hmem2

theorem dictLookup_mapUpdate_ne {κ α : Type} [BEq κ] [LawfulBEq κ] (m : List (κ × α))
    (k' : κ) (v : α) (k : κ) (h : (k' == k) = false) :
    dictLookup (m.map fun kv => if kv.1 == k' then (k', v) else kv) k = dictLookup m k := by
  induction m with
  | nil => rfl
  | cons kv rest ih =>
    by_cases hk : (kv.1 == k') = true
    · have hkv : kv.1 = k' := eq_of_beq hk
      have hne : (kv.1 == k) = false := by
        rw [hkv]
        exact h
      rw [List.map_cons, if_pos hk]
      rw [dictLookup_cons_ne (k', v) _ k (by simpa using h)]
      rw [dictLookup_cons_ne kv _ k hne]
      exact ih
    · rw [List.map_cons, if_neg hk]
      by_cases hk2 : (kv.1 == k) = true
      · unfold dictLookup
        rw [List.find?_cons_of_pos _ (by simpa using hk2), List.find?_cons_of_pos _ (by simpa using hk2)]
      · rw [dictLookup_cons_ne kv _ k (by simpa using hk2),
          dictLookup_cons_ne kv _ k (by simpa using hk2)]
        exact ih

theorem dictLookup_append_ne {κ α : Type} [BEq κ] (m : List (κ × α)) (k' : κ) (v : α) (k : κ)
    (h : (k' == k) = false) : dictLookup (m ++ [(k', v)]) k = dictLookup m k := by
  induction m with
  | nil =>
    rw [List.nil_append]
    rw [dictLookup_cons_ne (k', v) _ k (by simpa using h)]
  | cons kv rest ih =>
    by_cases hk : (kv.1 == k) = true
    · unfold dictLookup
      rw [List.cons_append, List.find?_cons_of_pos _ (by simpa using hk),
        List.find?_cons_of_pos _ (by simpa using hk)]
    · rw [List.cons_append, dictLookup_cons_ne kv _ k (by simpa using hk),
        dictLookup_cons_ne kv _ k (by simpa using hk)]
      exact ih

theorem dictLookup_eq_none {κ α : Type} [BEq κ] (m : List (κ × α)) (k : κ)
    (h : (m.any fun kv => kv.1 == k) = false) : dictLookup m k = none := by
  induction m with
  | nil => rfl
  | cons kv rest ih =>
    simp only [List.any_cons, Bool.or_eq_false_iff] at h
    rw [dictLookup_cons_ne kv _ k h.1]
    exact ih h.2

theorem dictLookup_append_self {κ α : Type} [BEq κ] [LawfulBEq κ] (m : List (κ × α))
    (k : κ) (v : α) (h : dictLookup m k = none) : dictLookup (m ++ [(k, v)]) k = some v := by
  induction m with
  | nil => exact dictLookup_cons_self k v []
  | cons kv rest ih =>
    cases hk : kv.1 == k with
    | true =>
      exfalso
      unfold dictLookup at h
      rw [List.find?_cons_of_pos _ (by simpa using hk)] at h
      simp at h
    | false =>
      rw [dictLookup_cons_ne kv rest k hk] at h
      rw [List.cons_append, dictLookup_cons_ne kv _ k hk]
      exact ih h

theorem dictLookup_insert_self {κ α : Type} [BEq κ] [LawfulBEq κ] (m : List (κ × α))
    (k : κ) (v : α) : dictLookup (dictInsert k v m) k = some v := by
  unfold dictInsert
  by_cases hmem : (m.any fun kv => kv.1 == k) = true
  · rw [if_pos hmem]
    exact dictLookup_mapUpdate_self m k v hmem
  · rw [if_neg hmem]
    have hfalse : (m.any fun kv => kv.1 == k) = false := by
      cases hany : (m.any fun kv => kv.1 == k) with
      | true => exact absurd hany hmem
      | false => rfl
    exact dictLookup_append_self m k v (dictLookup_eq_none m k hfalse)

theorem dictLookup_insert_ne {κ α : Type} [BEq κ] [LawfulBEq κ] (m : List (κ × α))
    (k' : κ) (v : α) (k : κ) (h : (k' == k) = false) :
    dictLookup (dictInsert k' v m) k = dictLookup m k := by
  unfold dictInsert
  by_cases hmem : (m.any fun kv => kv.1 == k') = true
  · rw [if_pos hmem]
    exact dictLookup_mapUpdate_ne m k' v k h
  · rw [if_neg hmem]
    exact dictLookup_append_ne m k' v k h

/-! ### `split_values_to_map` lemmas -/

theorem append_abs_ne_sign (name : String) :
    ((name ++ "_abs") == (name ++ "_sign")) = false := by
  rw [beq_eq_false_iff_ne]
  intro h
  have hlen := congrArg String.length h
  rw [String.length_append, String.length_append] at hlen
  have h4 : ("_abs" : String).length = 4 := rfl
  have h5 : ("_sign" : String).length = 5 := rfl
  omega

theorem splitOne_eq (m : List (String × String)) (name : String) (apz : Bool) (d : Dec)
    (h : floatOfString? (dictGetD m name "0") = some d) :
    splitOne m name apz = .ok (dictInsert (name ++ "_abs")
      (canonStr ⟨(d.num.natAbs : Int), d.exp⟩)
      (dictInsert (name ++ "_sign")
        (if d.num < 0 then "-" else if 0 < d.num then "+" else if apz then "+" else "")
        (dictInsert name (canonStr d) m))) := by
  unfold splitOne
  rw [h]

theorem split_values_to_map_cons_true (m : List (String × String)) (name : String)
    (apz : Bool) (rest : List SplitVar) :
    split_values_to_map m (⟨name, true⟩ :: rest) apz =
      match splitOne m name apz with
      | .error e => .error e
      | .ok m1 => split_values_to_map m1 rest apz := rfl

/-- C8: for a variable flagged for sign/magnitude split whose current value
parses as a float, `split_values_to_map` adds `<name>_sign` and `<name>_abs`
entries: the sign is `"-"` for a negative value, `"+"` for a positive one,
and for zero `"+"` exactly when `always_positive_zero` is set (else the empty
string); the absolute value is stored in integer/decimal canonical form.  In
particular value `-3.5` gives sign `"-"` and abs `"3.5"`, and value `0` with
`always_positive_zero` gives sign `"+"` and abs `"0"`. -/
theorem C8_split_derivation :
    (∀ (m : List (String × String)) (name : String) (apz : Bool) (d : Dec),
      floatOfString? (dictGetD m name "0") = some d →
      ∃ m2, split_values_to_map m [⟨name, true⟩] apz = .ok m2 ∧
        dictLookup m2 (name ++ "_abs") = some (canonStr ⟨(d.num.natAbs : Int), d.exp⟩) ∧
        (d.num < 0 → dictLookup m2 (name ++ "_sign") = some "-") ∧
        (0 < d.num → dictLookup m2 (name ++ "_sign") = some "+") ∧
        (d.num = 0 → dictLookup m2 (name ++ "_sign") = some (if apz then "+" else ""))) ∧
    (∃ m2, split_values_to_map [("x", "-3.5")] [⟨"x", true⟩] false = .ok m2 ∧
      dictLookup m2 "x_sign" = some "-" ∧ dictLookup m2 "x_abs" = some "3.5") ∧
    (∃ m2, split_values_to_map [("x", "0")] [⟨"x", true⟩] true = .ok m2 ∧
      dictLookup m2 "x_sign" = some "+" ∧ dictLookup m2 "x_abs" = some "0") := by
  refine ⟨?_, ?_, ?_⟩
  · intro m name apz d h
    refine ⟨dictInsert (name ++ "_abs") (canonStr ⟨(d.num.natAbs : Int), d.exp⟩)
      (dictInsert (name ++ "_sign")
        (if d.num < 0 then "-" else if 0 < d.num then "+" else if apz then "+" else "")
        (dictInsert name (canonStr d) m)), ?_, ?_, ?_, ?_, ?_⟩
    · rw [split_values_to_map_cons_true, splitOne_eq m name apz d h]
      rfl
    · exact dictLookup_insert_self _ _ _
    · intro hneg
      rw [dictLookup_insert_ne _ _ _ _ (append_abs_ne_sign name),
        dictLookup_insert_self, if_pos hneg]
    · intro hpos
      have hneg : ¬d.num < 0 := by omega
      rw [dictLookup_insert_ne _ _ _ _ (append_abs_ne_sign name),
        dictLookup_insert_self, if_neg hneg, if_pos hpos]
    · intro hzero
      have hneg : ¬d.num < 0 := by omega
      have hpos : ¬0 < d.num := by omega
      rw [dictLookup_insert_ne _ _ _ _ (append_abs_ne_sign name),
        dictLookup_insert_self, if_neg hneg, if_neg hpos]
  · exact ⟨_, rfl, by decide, by decide⟩
  · exact ⟨_, rfl, by decide, by decide⟩

/-- Witness for C8: the general split rule applied to the concrete map
`{y: "-3.5"}`. -/
theorem C8_split_derivation_witness :
    ∃ m2, split_values_to_map [("y", "-3.5")] [⟨"y", true⟩] false = .ok m2 ∧
      dictLookup m2 ("y" ++ "_abs") = some (canonStr ⟨((-35 : Int).natAbs : Int), 1⟩) ∧
      dictLookup m2 ("y" ++ "_sign") = some "-" := by
  obtain ⟨m2, h1, h2, h3, _, _⟩ :=
    C8_split_derivation.1 [("y", "-3.5")] "y" false ⟨-35, 1⟩ (by decide)
  exact ⟨m2, h1, h2, h3 (by decide)⟩

/-- C6: the value-map formatter is idempotent (`format(format(m)) = format(m)`
for every value map `m`); entries whose key ends in `_sign` or `_abs` are
skipped, non-numeric values pass through unchanged, and numeric values are
re-serialized in integer/decimal canonical form. -/
theorem C6_format_value_map_idempotent :
    (∀ m : List (String × String), format_value_map (format_value_map m) = format_value_map m) ∧
    (∀ k v : String, (endsWithC k "_sign" || endsWithC k "_abs") = true →
      format_value_map [(k, v)] = [(k, v)]) ∧
    (∀ k v : String, (endsWithC k "_sign" || endsWithC k "_abs") = false →
      floatOfString? v = none → format_value_map [(k, v)] = [(k, v)]) ∧
    (∀ (k v : String) (d : Dec), (endsWithC k "_sign" || endsWithC k "_abs") = false →
      floatOfString? v = some d → format_value_map [(k, v)] = [(k, canonStr d)]) := by
  refine ⟨format_value_map_idem, ?_, ?_, ?_⟩
  · intro k v hs
    simp [format_value_map, formatEntry, hs]
  · intro k v hs hv
    simp [format_value_map, formatEntry, hs, formatValue, hv]
  · intro k v d hs hv
    simp [format_value_map, formatEntry, hs, formatValue, hv]

/-- Witness for C6 at concrete maps. -/
theorem C6_format_value_map_idempotent_witness :
    format_value_map (format_value_map [("a", "2.50"), ("b_sign", "+"), ("c", "xyz")]) =
      format_value_map [("a", "2.50"), ("b_sign", "+"), ("c", "xyz")] ∧
    format_value_map [("b_sign", "+")] = [("b_sign", "+")] ∧
    format_value_map [("c", "xyz")] = [("c", "xyz")] ∧
    format_value_map [("a", "2.50")] = [("a", canonStr ⟨25, 1⟩)] :=
  ⟨C6_format_value_map_idempotent.1 _,
   C6_format_value_map_idempotent.2.1 "b_sign" "+" (by decide),
   C6_format_value_map_idempotent.2.2.1 "c" "xyz" (by decide) (by decide),
   C6_format_value_map_idempotent.2.2.2 "a" "2.50" ⟨25, 1⟩ (by decide) (by decide)⟩

/-! ### Randomizer lemmas -/

theorem pyChoice_error {l : List String} {s : List Nat} {e : String}
    (h : pyChoice l s = .error e) : e = "IndexError: Cannot choose from an empty sequence" := by
  unfold pyChoice at h
  by_cases hemp : l.isEmpty = true
  · rw [if_pos hemp] at h
    exact (Except.error.inj h).symm
  · rw [if_neg hemp] at h
    exact absurd h (by simp)

theorem drawOnce_error : ∀ {mems : List PyVariable} {cd : List (Nat × List String)}
    {vals : List (Nat × String)} {s : List Nat} {e : String},
    drawOnce mems cd vals s = .error e →
    e = "IndexError: Cannot choose from an empty sequence" := by
  intro mems
  induction mems with
  | nil => intro cd vals s e h; simp [drawOnce] at h
  | cons v rest ih =>
    intro cd vals s e h
    unfold drawOnce at h
    cases hc : pyChoice (dictGetD cd v.id []) s with
    | error e2 =>
      rw [hc] at h
      rw [← Except.error.inj h]
      exact pyChoice_error hc
    | ok pr =>
      rw [hc] at h
      exact ih h

theorem dictInsert_any_key {κ α : Type} [BEq κ] [LawfulBEq κ] (m : List (κ × α))
    (k' : κ) (v : α) (k : κ) (h : (m.any fun kv => kv.1 == k) = true) :
    ((dictInsert k' v m).any fun kv => kv.1 == k) = true := by
  unfold dictInsert
  by_cases hmem : (m.any fun kv => kv.1 == k') = true
  · rw [if_pos hmem]
    rw [List.any_eq_true] at h ⊢
    obtain ⟨kv, hkv, hkey⟩ := h
    by_cases hk : (kv.1 == k') = true
    · refine ⟨(k', v), List.mem_map.mpr ⟨kv, hkv, by rw [if_pos hk]⟩, ?_⟩
      have : kv.1 = k' := eq_of_beq hk
      rw [← this]
      exact hkey
    · exact ⟨kv, List.mem_map.mpr ⟨kv, hkv, by rw [if_neg hk]⟩, hkey⟩
  · rw [if_neg hmem]
    rw [List.any_eq_true] at h ⊢
    obtain ⟨kv, hkv, hkey⟩ := h
    exact ⟨kv, List.mem_append.mpr (Or.inl hkv), hkey⟩

theorem dictInsert_any_self {κ α : Type} [BEq κ] [LawfulBEq κ] (m : List (κ × α))
    (k : κ) (v : α) : ((dictInsert k v m).any fun kv => kv.1 == k) = true := by
  unfold dictInsert
  by_cases hmem : (m.any fun kv => kv.1 == k) = true
  · rw [if_pos hmem]
    rw [List.any_eq_true] at hmem ⊢
    obtain ⟨kv, hkv, hkey⟩ := hmem
    exact ⟨(k, v), List.mem_map.mpr ⟨kv, hkv, by rw [if_pos hkey]⟩, by simp⟩
  · rw [if_neg hmem]
    rw [List.any_eq_true]
    exact ⟨(k, v), List.mem_append.mpr (Or.inr (by simp)), by simp⟩

theorem drawOnce_covers : ∀ (mems : List PyVariable) (cd : List (Nat × List String))
    (vals : List (Nat × String)) (s : List Nat) (vals2 : List (Nat × String)) (s2 : List Nat),
    drawOnce mems cd vals s = .ok (vals2, s2) →
    (∀ k, (vals.any fun kv => kv.1 == k) = true → (vals2.any fun kv => kv.1 == k) = true) ∧
    (∀ m ∈ mems, (vals2.any fun kv => kv.1 == m.id) = true)
  | [], cd, vals, s, vals2, s2 => by
    intro h
    unfold drawOnce at h
    obtain ⟨h1, h2⟩ := Prod.mk.injEq .. ▸ Except.ok.inj h
    subst h1
    exact ⟨fun k hk => hk, fun m hm => by simp at hm⟩
  | v :: rest, cd, vals, s, vals2, s2 => by
    intro h
    unfold drawOnce at h
    cases hc : pyChoice (dictGetD cd v.id []) s with
    | error e => rw [hc] at h; exact absurd h (by simp)
    | ok pr =>
      obtain ⟨c, s1⟩ := pr
      rw [hc] at h
      have ih := drawOnce_covers rest cd (dictInsert v.id c vals) s1 vals2 s2 h
      refine ⟨fun k hk => ih.1 k (dictInsert_any_key vals v.id c k hk), ?_⟩
      intro m hm
      rcases List.mem_cons.mp hm with rfl | hm2
      · exact ih.1 m.id (dictInsert_any_self vals m.id c)
      · exact ih.2 m hm2

theorem groupLoop_ok_nodup : ∀ (fuel : Nat) (g : String) (mems : List PyVariable)
    (cd : List (Nat × List String)) (s : List Nat) (vals : List (Nat × String))
    (s1 : List Nat) (k : Nat),
    groupLoop fuel g mems cd s = .ok (vals, s1, k) →
    (vals.map fun kv => kv.2).Nodup ∧ ∀ m ∈ mems, (vals.any fun kv => kv.1 == m.id) = true
  | 0, g, mems, cd, s, vals, s1, k => by
    intro h
    exact absurd h (by simp [groupLoop])
  | fuel + 1, g, mems, cd, s, vals, s1, k => by
    intro h
    unfold groupLoop at h
    split at h
    next e heq => exact absurd h (by simp)
    next vals0 s0 heq =>
      split at h
      next hnd =>
        simp only [Except.ok.injEq, Prod.mk.injEq] at h
        obtain ⟨rfl, rfl, rfl⟩ := h
        exact ⟨hnd, (drawOnce_covers mems cd [] s vals0 s0 heq).2⟩
      next hnd =>
        split at h
        next e heq2 => exact absurd h (by simp)
        next vals2 s2 k2 heq2 =>
          simp only [Except.ok.injEq, Prod.mk.injEq] at h
          obtain ⟨rfl, rfl, rfl⟩ := h
          exact groupLoop_ok_nodup fuel g mems cd s0 vals2 s2 k2 heq2

theorem groupLoop_succ_ok (fuel : Nat) (g : String) (mems : List PyVariable)
    (cd : List (Nat × List String)) (s : List Nat) (vals0 : List (Nat × String)) (s0 : List Nat)
    (hd : drawOnce mems cd [] s = .ok (vals0, s0)) :
    groupLoop (fuel + 1) g mems cd s =
      (if (vals0.map fun kv => kv.2).Nodup then .ok (vals0, s0, 1)
       else
        match groupLoop fuel g mems cd s0 with
        | .error e => .error e
        | .ok (vals2, s2, k) => .ok (vals2, s2, k + 1)) := by
  rw [show groupLoop (fuel + 1) g mems cd s =
      (match drawOnce mems cd [] s with
       | .error e => .error e
       | .ok (vals, s1) =>
         if (vals.map fun kv => kv.2).Nodup then .ok (vals, s1, 1)
         else
           match groupLoop fuel g mems cd s1 with
           | .error e => .error e
           | .ok (vals2, s2, k) => .ok (vals2, s2, k + 1)) from rfl]
  rw [hd]

theorem groupLoop_succ_error (fuel : Nat) (g : String) (mems : List PyVariable)
    (cd : List (Nat × List String)) (s : List Nat) (e : String)
    (hd : drawOnce mems cd [] s = .error e) :
    groupLoop (fuel + 1) g mems cd s = .error e := by
  rw [show groupLoop (fuel + 1) g mems cd s =
      (match drawOnce mems cd [] s with
       | .error e => .error e
       | .ok (vals, s1) =>
         if (vals.map fun kv => kv.2).Nodup then .ok (vals, s1, 1)
         else
           match groupLoop fuel g mems cd s1 with
           | .error e => .error e
           | .ok (vals2, s2, k) => .ok (vals2, s2, k + 1)) from rfl]
  rw [hd]

theorem groupLoop_cases : ∀ (fuel : Nat) (g : String) (mems : List PyVariable)
    (cd : List (Nat × List String)) (s : List Nat),
    (∃ vals s1 k, groupLoop fuel g mems cd s = .ok (vals, s1, k) ∧ k ≤ fuel ∧
      (vals.map fun kv => kv.2).Nodup) ∨
    groupLoop fuel g mems cd s = .error (groupMsg g) ∨
    groupLoop fuel g mems cd s = .error "IndexError: Cannot choose from an empty sequence"
  | 0, g, mems, cd, s => Or.inr (Or.inl rfl)
  | fuel + 1, g, mems, cd, s => by
    cases hd : drawOnce mems cd [] s with
    | error e =>
      right; right
      rw [groupLoop_succ_error fuel g mems cd s e hd, drawOnce_error hd]
    | ok pr =>
      obtain ⟨vals0, s0⟩ := pr
      rw [groupLoop_succ_ok fuel g mems cd s vals0 s0 hd]
      by_cases hnd : (vals0.map fun kv => kv.2).Nodup
      · left
        exact ⟨vals0, s0, 1, by rw [if_pos hnd], by omega, hnd⟩
      · rcases groupLoop_cases fuel g mems cd s0 with ⟨vals2, s2, k, hok, hk, hnd2⟩ | herr | herr
        · left
          refine ⟨vals2, s2, k + 1, ?_, by omega, hnd2⟩
          rw [if_neg hnd, hok]
        · right; left
          rw [if_neg hnd, herr]
        · right; right
          rw [if_neg hnd, herr]

theorem processGroups_cons_ok (g : String) (mems : List PyVariable)
    (rest : List (String × List PyVariable)) (cd : List (Nat × List String))
    (asn : List (Nat × String)) (s : List Nat) (vals : List (Nat × String)) (s1 : List Nat)
    (k : Nat) (h : groupLoop 1000 g mems cd s = .ok (vals, s1, k)) :
    processGroups ((g, mems) :: rest) cd asn s =
      processGroups rest cd (mergeAsn asn vals mems) s1 := by
  rw [show processGroups ((g, mems) :: rest) cd asn s =
      (match groupLoop 1000 g mems cd s with
       | .error e => .error e
       | .ok (vals2, s2, _) => processGroups rest cd (mergeAsn asn vals2 mems) s2) from rfl]
  rw [h]

theorem processGroups_cons_error (g : String) (mems : List PyVariable)
    (rest : List (String × List PyVariable)) (cd : List (Nat × List String))
    (asn : List (Nat × String)) (s : List Nat) (e : String)
    (h : groupLoop 1000 g mems cd s = .error e) :
    processGroups ((g, mems) :: rest) cd asn s = .error e := by
  rw [show processGroups ((g, mems) :: rest) cd asn s =
      (match groupLoop 1000 g mems cd s with
       | .error e => .error e
       | .ok (vals2, s2, _) => processGroups rest cd (mergeAsn asn vals2 mems) s2) from rfl]
  rw [h]

theorem processGroups_ok_groups : ∀ (gs : List (String × List PyVariable))
    (cd : List (Nat × List String)) (asn : List (Nat × String)) (s : List Nat)
    (r : List (Nat × String) × List Nat),
    processGroups gs cd asn s = .ok r →
    ∀ p ∈ gs, ∃ s0 vals s1 k, groupLoop 1000 p.1 p.2 cd s0 = .ok (vals, s1, k)
  | [], cd, asn, s, r => by
    intro _ p hp
    simp at hp
  | (g, mems) :: rest, cd, asn, s, r => by
    intro h p hp
    cases hg : groupLoop 1000 g mems cd s with
    | error e =>
      rw [processGroups_cons_error g mems rest cd asn s e hg] at h
      exact absurd h (by simp)
    | ok tri =>
      obtain ⟨vals, s1, k⟩ := tri
      rw [processGroups_cons_ok g mems rest cd asn s vals s1 k hg] at h
      rcases List.mem_cons.mp hp with rfl | hp2
      · exact ⟨s, vals, s1, k, hg⟩
      · exact processGroups_ok_groups rest cd _ s1 r h p hp2

/-- C4: the uniqueness-group rejection loop is fuel-bounded: run with the
view's cap of 1000, it either succeeds within at most 1000 attempts (with
pairwise-distinct drawn values) or aborts with the descriptive exception
naming the offending group (the only other failure is the `IndexError` an
empty candidate list raises inside `random.choice`); the message is exactly
the source's, containing the group name; and if any group's loop fails the
whole randomization aborts — an overall success means every group's loop
returned a value, so no silent default is ever substituted. -/
theorem C4_rejection_cap :
    (∀ (g : String) (mems : List PyVariable) (cd : List (Nat × List String)) (s : List Nat),
      (∃ vals s1 k, groupLoop 1000 g mems cd s = .ok (vals, s1, k) ∧ k ≤ 1000 ∧
        (vals.map fun kv => kv.2).Nodup) ∨
      groupLoop 1000 g mems cd s = .error (groupMsg g) ∨
      groupLoop 1000 g mems cd s = .error "IndexError: Cannot choose from an empty sequence") ∧
    (∀ g : String, groupMsg g =
      "Nie można wygenerować unikalnych wartości dla grupy zmiennych: " ++ g) ∧
    (∀ (gs : List (String × List PyVariable)) (cd : List (Nat × List String))
      (asn : List (Nat × String)) (s : List Nat) (r : List (Nat × String) × List Nat),
      processGroups gs cd asn s = .ok r →
      ∀ p ∈ gs, ∃ s0 vals s1 k, groupLoop 1000 p.1 p.2 cd s0 = .ok (vals, s1, k)) :=
  ⟨fun g mems cd s => groupLoop_cases 1000 g mems cd s, fun _ => rfl, processGroups_ok_groups⟩

/-- Witness for C4: the propagation clause applied to a concrete
one-group randomization that succeeds. -/
theorem C4_rejection_cap_witness :
    ∃ s0 vals s1 k,
      groupLoop 1000 ("g", [wVarA, wVarB]).1 ("g", [wVarA, wVarB]).2
        (choicesDict [wVarA, wVarB]) s0 = .ok (vals, s1, k) :=
  C4_rejection_cap.2.2 [("g", [wVarA, wVarB])] (choicesDict [wVarA, wVarB]) [] [0, 1]
    ([(1, "1"), (2, "2")], []) (by rfl) ("g", [wVarA, wVarB]) (by simp)

theorem dictLookup_isSome_of_any {κ α : Type} [BEq κ] (m : List (κ × α)) (k : κ)
    (h : (m.any fun kv => kv.1 == k) = true) : ∃ v, dictLookup m k = some v := by
  induction m with
  | nil => simp at h
  | cons kv rest ih =>
    cases hk : kv.1 == k with
    | true =>
      refine ⟨kv.2, ?_⟩
      unfold dictLookup
      rw [List.find?_cons_of_pos _ (by simpa using hk)]
      rfl
    | false =>
      rw [dictLookup_cons_ne kv rest k hk]
      apply ih
      simp only [List.any_cons, hk, Bool.false_or] at h
      exact h

theorem dictLookup_ne_of_values_nodup {m : List (Nat × String)}
    (hvals : (m.map fun kv => kv.2).Nodup) {k1 k2 : Nat} (h12 : k1 ≠ k2)
    {v1 v2 : String} (h1 : dictLookup m k1 = some v1) (h2 : dictLookup m k2 = some v2) :
    v1 ≠ v2 := by
  unfold dictLookup at h1 h2
  cases hf1 : m.find? fun kv => kv.1 == k1 with
  | none => rw [hf1] at h1; simp at h1
  | some e1 =>
    cases hf2 : m.find? fun kv => kv.1 == k2 with
    | none => rw [hf2] at h2; simp at h2
    | some e2 =>
      rw [hf1] at h1
      rw [hf2] at h2
      have hv1 : e1.2 = v1 := by simpa using h1
      have hv2 : e2.2 = v2 := by simpa using h2
      have hm1 : e1 ∈ m := List.mem_of_find?_eq_some hf1
      have hm2 : e2 ∈ m := List.mem_of_find?_eq_some hf2
      have hp1 : (e1.1 == k1) = true := by simpa using List.find?_some hf1
      have hp2 : (e2.1 == k2) = true := by simpa using List.find?_some hf2
      have hk1 : e1.1 = k1 := eq_of_beq hp1
      have hk2 : e2.1 = k2 := eq_of_beq hp2
      intro hvv
      have he : e1 = e2 :=
        List.inj_on_of_nodup_map hvals hm1 hm2 (by rw [hv1, hv2, hvv])
      apply h12
      rw [← hk1, ← hk2, he]

theorem mergeAsn_lookup (vals : List (Nat × String)) : ∀ (mems : List PyVariable)
    (asn : List (Nat × String)) (k : Nat),
    dictLookup (mergeAsn asn vals mems) k =
      if (mems.any fun m => m.id == k) = true then
        match dictLookup vals k with
        | some val => some val
        | none => dictLookup asn k
      else dictLookup asn k
  | [], asn, k => by
    rw [show mergeAsn asn vals [] = asn from rfl]
    rw [if_neg (by simp)]
  | m0 :: rest, asn, k => by
    rw [show mergeAsn asn vals (m0 :: rest) =
        mergeAsn (match dictLookup vals m0.id with
          | some val => dictInsert m0.id val asn
          | none => asn) vals rest from rfl]
    rw [mergeAsn_lookup vals rest _ k]
    by_cases hk : (m0.id == k) = true
    · have hid : m0.id = k := eq_of_beq hk
      subst hid
      rw [if_pos (show ((m0 :: rest).any fun m => m.id == m0.id) = true by
        rw [List.any_cons, hk, Bool.true_or])]
      by_cases hany : (rest.any fun m => m.id == m0.id) = true
      · rw [if_pos hany]
        cases hv : dictLookup vals m0.id with
        | some val => rfl
        | none => rfl
      · rw [if_neg hany]
        cases hv : dictLookup vals m0.id with
        | some val => exact dictLookup_insert_self asn m0.id val
        | none => rfl
    · have hkf : (m0.id == k) = false := by
        cases hc : (m0.id == k) with
        | true => exact absurd hc hk
        | false => rfl
      have hcons : ((m0 :: rest).any fun m => m.id == k) = (rest.any fun m => m.id == k) := by
        rw [List.any_cons, hkf, Bool.false_or]
      rw [hcons]
      have hasn2 : dictLookup (match dictLookup vals m0.id with
          | some val => dictInsert m0.id val asn
          | none => asn) k = dictLookup asn k := by
        cases hv : dictLookup vals m0.id with
        | some val => exact dictLookup_insert_ne asn m0.id val k hkf
        | none => rfl
      by_cases hany : (rest.any fun m => m.id == k) = true
      · rw [if_pos hany, if_pos hany]
        cases hv : dictLookup vals k with
        | some val => rfl
        | none => exact hasn2
      · rw [if_neg hany, if_neg hany]
        exact hasn2

theorem processGroups_preserve : ∀ (gs : List (String × List PyVariable))
    (cd : List (Nat × List String)) (asn : List (Nat × String)) (s : List Nat)
    (asn2 : List (Nat × String)) (s2 : List Nat),
    processGroups gs cd asn s = .ok (asn2, s2) →
    ∀ k, (∀ p ∈ gs, ∀ m ∈ p.2, m.id ≠ k) → dictLookup asn2 k = dictLookup asn k
  | [], cd, asn, s, asn2, s2 => by
    intro h k _
    rw [show processGroups [] cd asn s = .ok (asn, s) from rfl] at h
    simp only [Except.ok.injEq, Prod.mk.injEq] at h
    rw [← h.1]
  | (g, mems) :: rest, cd, asn, s, asn2, s2 => by
    intro h k hk
    cases hg : groupLoop 1000 g mems cd s with
    | error e =>
      rw [processGroups_cons_error g mems rest cd asn s e hg] at h
      exact absurd h (by simp)
    | ok tri =>
      obtain ⟨vals, s1, kk⟩ := tri
      rw [processGroups_cons_ok g mems rest cd asn s vals s1 kk hg] at h
      have hrest := processGroups_preserve rest cd _ s1 asn2 s2 h k
        (fun p hp m hm => hk p (List.mem_cons_of_mem _ hp) m hm)
      have hne : ¬((mems.any fun m => m.id == k) = true) := by
        intro hany
        rw [List.any_eq_true] at hany
        obtain ⟨m, hm, hmk⟩ := hany
        exact hk (g, mems) (List.mem_cons_self _ _) m hm (eq_of_beq hmk)
      rw [hrest, mergeAsn_lookup vals mems asn k, if_neg hne]

theorem processGroups_lookup_main : ∀ (gs : List (String × List PyVariable))
    (cd : List (Nat × List String)) (asn : List (Nat × String)) (s : List Nat)
    (asn2 : List (Nat × String)) (s2 : List Nat),
    processGroups gs cd asn s = .ok (asn2, s2) →
    gs.Pairwise (fun p q => ∀ m ∈ p.2, ∀ m2 ∈ q.2, m.id ≠ m2.id) →
    ∀ (g : String) (mems : List PyVariable), (g, mems) ∈ gs →
    ∀ a b, a ∈ mems → b ∈ mems → a.id ≠ b.id →
    ∃ va vb, dictLookup asn2 a.id = some va ∧ dictLookup asn2 b.id = some vb ∧ va ≠ vb
  | [], cd, asn, s, asn2, s2 => by
    intro _ _ g mems hmem
    simp at hmem
  | (g0, mems0) :: rest, cd, asn, s, asn2, s2 => by
    intro h hpw g mems hmem a b ha hb hab
    obtain ⟨hhead, hrestpw⟩ := List.pairwise_cons.mp hpw
    cases hg : groupLoop 1000 g0 mems0 cd s with
    | error e =>
      rw [processGroups_cons_error g0 mems0 rest cd asn s e hg] at h
      exact absurd h (by simp)
    | ok tri =>
      obtain ⟨vals, s1, kk⟩ := tri
      rw [processGroups_cons_ok g0 mems0 rest cd asn s vals s1 kk hg] at h
      rcases List.mem_cons.mp hmem with heq | hmem2
      · injection heq with hgeq hmeq
        subst hgeq
        subst hmeq
        have hnod := groupLoop_ok_nodup 1000 g mems cd s vals s1 kk hg
        obtain ⟨va, hva⟩ := dictLookup_isSome_of_any vals a.id (hnod.2 a ha)
        obtain ⟨vb, hvb⟩ := dictLookup_isSome_of_any vals b.id (hnod.2 b hb)
        have hvne : va ≠ vb := dictLookup_ne_of_values_nodup hnod.1 hab hva hvb
        have hpres : ∀ c : PyVariable, c ∈ mems →
            dictLookup asn2 c.id = dictLookup (mergeAsn asn vals mems) c.id := by
          intro c hc
          exact processGroups_preserve rest cd _ s1 asn2 s2 h c.id
            (fun p hp m hm => Ne.symm (hhead p hp c hc m hm))
        have hmerge : ∀ c : PyVariable, c ∈ mems → ∀ vc, dictLookup vals c.id = some vc →
            dictLookup (mergeAsn asn vals mems) c.id = some vc := by
          intro c hc vc hvc
          rw [mergeAsn_lookup vals mems asn c.id,
            if_pos (List.any_eq_true.mpr ⟨c, hc, by simp⟩), hvc]
        refine ⟨va, vb, ?_, ?_, hvne⟩
        · rw [hpres a ha]
          exact hmerge a ha va hva
        · rw [hpres b hb]
          exact hmerge b hb vb hvb
      · exact processGroups_lookup_main rest cd _ s1 asn2 s2 h hrestpw g mems hmem2 a b ha hb hab

theorem groupMembers_mapUpdate_self (g : String) (v : PyVariable) :
    ∀ gs : List (String × List PyVariable), (gs.any fun p => p.1 == g) = true →
    groupMembers g (gs.map fun p => if p.1 == g then (p.1, p.2 ++ [v]) else p) =
      groupMembers g gs ++ [v]
  | [], h => by simp at h
  | p :: rest, h => by
    cases hk : p.1 == g with
    | true =>
      unfold groupMembers
      rw [List.map_cons, if_pos hk]
      rw [List.find?_cons_of_pos _ (by simpa using hk), List.find?_cons_of_pos _ (by exact hk)]
    | false =>
      unfold groupMembers
      rw [List.map_cons, if_neg (by simp [hk])]
      rw [List.find?_cons_of_neg _ (by simp [hk]), List.find?_cons_of_neg _ (by simp [hk])]
      have hrest : (rest.any fun p => p.1 == g) = true := by
        simp only [List.any_cons, hk, Bool.false_or] at h
        exact h
      have hrec := groupMembers_mapUpdate_self g v rest hrest
      unfold groupMembers at hrec
      exact hrec

theorem groupMembers_append_self (g : String) (v : PyVariable) :
    ∀ gs : List (String × List PyVariable), (gs.any fun p => p.1 == g) = false →
    groupMembers g (gs ++ [(g, [v])]) = groupMembers g gs ++ [v]
  | [], _ => by
    unfold groupMembers
    rw [List.nil_append, List.find?_cons_of_pos _ (by simp)]
    rfl
  | p :: rest, h => by
    simp only [List.any_cons, Bool.or_eq_false_iff] at h
    unfold groupMembers
    rw [List.cons_append, List.find?_cons_of_neg _ (by simp [h.1]),
      List.find?_cons_of_neg _ (by simp [h.1])]
    have hrec := groupMembers_append_self g v rest h.2
    unfold groupMembers at hrec
    exact hrec

theorem groupMembers_groupAppend_self (g : String) (v : PyVariable)
    (gs : List (String × List PyVariable)) :
    groupMembers g (groupAppend g v gs) = groupMembers g gs ++ [v] := by
  unfold groupAppend
  by_cases hmem : (gs.any fun p => p.1 == g) = true
  · rw [if_pos hmem]
    exact groupMembers_mapUpdate_self g v gs hmem
  · rw [if_neg hmem]
    refine groupMembers_append_self g v gs ?_
    cases hc : gs.any fun p => p.1 == g with
    | true => exact absurd hc hmem
    | false => rfl

theorem groupMembers_mapUpdate_ne (g g' : String) (v : PyVariable)
    (hne : (g' == g) = false) :
    ∀ gs : List (String × List PyVariable),
    groupMembers g (gs.map fun p => if p.1 == g' then (p.1, p.2 ++ [v]) else p) =
      groupMembers g gs
  | [] => rfl
  | p :: rest => by
    cases hpk : p.1 == g' with
    | true =>
      have hpg : (p.1 == g) = false := by
        rw [eq_of_beq hpk]
        exact hne
      unfold groupMembers
      rw [List.map_cons, if_pos hpk]
      rw [List.find?_cons_of_neg _ (by simpa using hpg), List.find?_cons_of_neg _ (by simp [hpg])]
      have hrec := groupMembers_mapUpdate_ne g g' v hne rest
      unfold groupMembers at hrec
      exact hrec
    | false =>
      unfold groupMembers
      rw [List.map_cons, if_neg (by simp [hpk])]
      cases hpg : p.1 == g with
      | true =>
        rw [List.find?_cons_of_pos _ (by exact hpg), List.find?_cons_of_pos _ (by exact hpg)]
      | false =>
        rw [List.find?_cons_of_neg _ (by simp [hpg]), List.find?_cons_of_neg _ (by simp [hpg])]
        have hrec := groupMembers_mapUpdate_ne g g' v hne rest
        unfold groupMembers at hrec
        exact hrec

theorem groupMembers_append_ne (g g' : String) (v : PyVariable) (hne : (g' == g) = false) :
    ∀ gs : List (String × List PyVariable),
    groupMembers g (gs ++ [(g', [v])]) = groupMembers g gs
  | [] => by
    unfold groupMembers
    rw [List.nil_append, List.find?_cons_of_neg _ (by simp [hne])]
  | p :: rest => by
    unfold groupMembers
    cases hpg : p.1 == g with
    | true =>
      rw [List.cons_append, List.find?_cons_of_pos _ (by exact hpg), List.find?_cons_of_pos _ (by exact hpg)]
    | false =>
      rw [List.cons_append, List.find?_cons_of_neg _ (by simp [hpg]),
        List.find?_cons_of_neg _ (by simp [hpg])]
      have hrec := groupMembers_append_ne g g' v hne rest
      unfold groupMembers at hrec
      exact hrec

theorem groupMembers_groupAppend_ne (g g' : String) (v : PyVariable)
    (hne : (g' == g) = false) (gs : List (String × List PyVariable)) :
    groupMembers g (groupAppend g' v gs) = groupMembers g gs := by
  unfold groupAppend
  by_cases hmem : (gs.any fun p => p.1 == g') = true
  · rw [if_pos hmem]
    exact groupMembers_mapUpdate_ne g g' v hne gs
  · rw [if_neg hmem]
    exact groupMembers_append_ne g g' v hne gs

theorem groupAppend_upd_keys (g : String) (v : PyVariable) :
    ∀ gs : List (String × List PyVariable),
    ((gs.map fun p => if p.1 == g then (p.1, p.2 ++ [v]) else p).map fun p => p.1) =
      gs.map fun p => p.1
  | [] => rfl
  | p :: rest => by
    rw [List.map_cons, List.map_cons, List.map_cons]
    rw [groupAppend_upd_keys g v rest]
    congr 1
    by_cases hk : (p.1 == g) = true
    · rw [if_pos hk]
    · rw [if_neg hk]

theorem groupAppend_keys_nodup (g : String) (v : PyVariable)
    (gs : List (String × List PyVariable)) (h : (gs.map fun p => p.1).Nodup) :
    ((groupAppend g v gs).map fun p => p.1).Nodup := by
  unfold groupAppend
  by_cases hmem : (gs.any fun p => p.1 == g) = true
  · rw [if_pos hmem, groupAppend_upd_keys g v gs]
    exact h
  · rw [if_neg hmem, List.map_append]
    refine List.Nodup.append h (by simp) ?_
    intro x hx hy
    simp only [List.map_cons, List.map_nil, List.mem_singleton] at hy
    subst hy
    obtain ⟨p, hp, hpx⟩ := List.mem_map.mp hx
    apply hmem
    rw [List.any_eq_true]
    exact ⟨p, hp, by rw [hpx]; simp⟩

theorem phase1_cons (v : PyVariable) (rest : List PyVariable)
    (cd : List (Nat × List String)) (asn : List (Nat × String))
    (gs : List (String × List PyVariable)) (s : List Nat) :
    phase1 (v :: rest) cd asn gs s =
      (match v.unique_group with
       | some g => phase1 rest cd asn (groupAppend g v gs) s
       | none =>
         match pyChoice (dictGetD cd v.id []) s with
         | .error e => .error e
         | .ok (val, s1) => phase1 rest cd (dictInsert v.id val asn) gs s1) := rfl

theorem phase1_members : ∀ (l : List PyVariable) (cd : List (Nat × List String))
    (asn : List (Nat × String)) (gs : List (String × List PyVariable)) (s : List Nat)
    (asn1 : List (Nat × String)) (gs1 : List (String × List PyVariable)) (s1 : List Nat),
    phase1 l cd asn gs s = .ok (asn1, gs1, s1) →
    ∀ g, groupMembers g gs1 = groupMembers g gs ++ (l.filter fun v => v.unique_group == some g)
  | [], cd, asn, gs, s, asn1, gs1, s1 => by
    intro h g
    rw [show phase1 [] cd asn gs s = .ok (asn, gs, s) from rfl] at h
    simp only [Except.ok.injEq, Prod.mk.injEq] at h
    rw [← h.2.1]
    simp
  | v :: rest, cd, asn, gs, s, asn1, gs1, s1 => by
    intro h g
    rw [phase1_cons] at h
    cases hug : v.unique_group with
    | some g0 =>
      rw [hug] at h
      have ih := phase1_members rest cd asn (groupAppend g0 v gs) s asn1 gs1 s1 h g
      rw [ih]
      by_cases hg : (g0 == g) = true
      · have hgeq : g0 = g := eq_of_beq hg
        subst hgeq
        rw [groupMembers_groupAppend_self g0 v gs]
        rw [List.filter_cons, if_pos (show (v.unique_group == some g0) = true by
          rw [hug]; exact hg)]
        simp [List.append_assoc]
      · have hgf : (g0 == g) = false := by
          cases hc : g0 == g with
          | true => exact absurd hc hg
          | false => rfl
        rw [groupMembers_groupAppend_ne g g0 v hgf gs]
        rw [List.filter_cons, if_neg (show ¬(v.unique_group == some g) = true by
          rw [hug]; exact fun hc => hg hc)]
    | none =>
      rw [hug] at h
      cases hc : pyChoice (dictGetD cd v.id []) s with
      | error e => rw [hc] at h; exact absurd h (by simp)
      | ok pr =>
        obtain ⟨val, s2⟩ := pr
        rw [hc] at h
        have ih := phase1_members rest cd (dictInsert v.id val asn) gs s2 asn1 gs1 s1 h g
        rw [ih, List.filter_cons, if_neg (show ¬(v.unique_group == some g) = true by
          rw [hug]; simp)]

theorem phase1_keys_nodup : ∀ (l : List PyVariable) (cd : List (Nat × List String))
    (asn : List (Nat × String)) (gs : List (String × List PyVariable)) (s : List Nat)
    (asn1 : List (Nat × String)) (gs1 : List (String × List PyVariable)) (s1 : List Nat),
    phase1 l cd asn gs s = .ok (asn1, gs1, s1) →
    (gs.map fun p => p.1).Nodup → (gs1.map fun p => p.1).Nodup
  | [], cd, asn, gs, s, asn1, gs1, s1 => by
    intro h hnd
    rw [show phase1 [] cd asn gs s = .ok (asn, gs, s) from rfl] at h
    simp only [Except.ok.injEq, Prod.mk.injEq] at h
    rw [← h.2.1]
    exact hnd
  | v :: rest, cd, asn, gs, s, asn1, gs1, s1 => by
    intro h hnd
    rw [phase1_cons] at h
    cases hug : v.unique_group with
    | some g0 =>
      rw [hug] at h
      exact phase1_keys_nodup rest cd asn (groupAppend g0 v gs) s asn1 gs1 s1 h
        (groupAppend_keys_nodup g0 v gs hnd)
    | none =>
      rw [hug] at h
      cases hc : pyChoice (dictGetD cd v.id []) s with
      | error e => rw [hc] at h; exact absurd h (by simp)
      | ok pr =>
        obtain ⟨val, s2⟩ := pr
        rw [hc] at h
        exact phase1_keys_nodup rest cd (dictInsert v.id val asn) gs s2 asn1 gs1 s1 h hnd

theorem groupMembers_of_mem : ∀ (gs : List (String × List PyVariable)),
    (gs.map fun p => p.1).Nodup → ∀ (g : String) (mems : List PyVariable),
    (g, mems) ∈ gs → groupMembers g gs = mems
  | [], _, g, mems, h => absurd h (by simp)
  | p :: rest, hnd, g, mems, h => by
    rcases List.mem_cons.mp h with heq | h2
    · rw [← heq]
      unfold groupMembers
      rw [List.find?_cons_of_pos _ (by simp)]
    · have hnd2 : (p.1 :: rest.map fun p => p.1).Nodup := by simpa using hnd
      have hkey : p.1 ≠ g := by
        intro hpg
        have hgm : g ∈ rest.map fun p => p.1 := List.mem_map.mpr ⟨(g, mems), h2, rfl⟩
        rw [← hpg] at hgm
        exact (List.nodup_cons.mp hnd2).1 hgm
      unfold groupMembers
      rw [List.find?_cons_of_neg _ (by simp [hkey])]
      have hrec := groupMembers_of_mem rest (List.nodup_cons.mp hnd2).2 g mems h2
      unfold groupMembers at hrec
      exact hrec

theorem randomize_variables_ok_parts (vars : List PyVariable) (s : List Nat)
    (res : List PyVariable) (s2 : List Nat)
    (h : randomize_variables vars s = .ok (res, s2)) :
    ∃ asn1 gs1 s1 asn2,
      phase1 vars (choicesDict vars) [] [] s = .ok (asn1, gs1, s1) ∧
      processGroups gs1 (choicesDict vars) asn1 s1 = .ok (asn2, s2) ∧
      res = applyAsn vars asn2 := by
  unfold randomize_variables at h
  split at h
  next e heq => exact absurd h (by simp)
  next asn1 gs1 s1 heq =>
    split at h
    next e heq2 => exact absurd h (by simp)
    next asn2 s2x heq2 =>
      simp only [Except.ok.injEq, Prod.mk.injEq] at h
      exact ⟨asn1, gs1, s1, asn2, heq, h.2 ▸ heq2, h.1.symm⟩

theorem applyAsn_mem {vars : List PyVariable} {asn : List (Nat × String)} {a : PyVariable}
    (ha : a ∈ applyAsn vars asn) :
    ∃ v ∈ vars, a.id = v.id ∧ a.unique_group = v.unique_group ∧
      a.original_value = (match dictLookup asn v.id with
        | some val => val
        | none => v.original_value) := by
  unfold applyAsn at ha
  obtain ⟨v, hv, hav⟩ := List.mem_map.mp ha
  refine ⟨v, hv, ?_, ?_, ?_⟩ <;> (
    cases hl : dictLookup asn v.id with
    | some val =>
      rw [hl] at hav
      rw [← hav]
    | none =>
      rw [hl] at hav
      rw [← hav])

/-- C3: for every run of `randomize_variables` that returns without raising
and every uniqueness group `g` whose `k` member variables each carry at least
`k` candidates, the values written into the members' `original_value` are
pairwise distinct.  (Variable ids are database primary keys, hence assumed
pairwise distinct; the candidate-size bound is part of the claim and not
needed for distinctness, which the accept-test of the rejection loop already
guarantees.) -/
theorem C3_unique_group_distinct
    (vars : List PyVariable) (s : List Nat) (res : List PyVariable) (s2 : List Nat) (g : String)
    (hok : randomize_variables vars s = .ok (res, s2))
    (hids : (vars.map fun v => v.id).Nodup)
    (hsize : ∀ v ∈ vars, v.unique_group = some g →
      (vars.filter fun w => w.unique_group == some g).length ≤ (computeChoices v).length)
    (a b : PyVariable) (ha : a ∈ res) (hb : b ∈ res)
    (hag : a.unique_group = some g) (hbg : b.unique_group = some g)
    (hab : a.id ≠ b.id) :
    a.original_value ≠ b.original_value := by
  clear hsize
  obtain ⟨asn1, gs1, s1, asn2, hp1, hpg, hres⟩ := randomize_variables_ok_parts vars s res s2 hok
  subst hres
  obtain ⟨va, hva, haid, hagrp, haval⟩ := applyAsn_mem ha
  obtain ⟨vb, hvb, hbid, hbgrp, hbval⟩ := applyAsn_mem hb
  have hvag : va.unique_group = some g := hagrp.symm.trans hag
  have hvbg : vb.unique_group = some g := hbgrp.symm.trans hbg
  have hva_mem : va ∈ vars.filter fun w => w.unique_group == some g :=
    List.mem_filter.mpr ⟨hva, by rw [hvag]; exact beq_self_eq_true _⟩
  have hvb_mem : vb ∈ vars.filter fun w => w.unique_group == some g :=
    List.mem_filter.mpr ⟨hvb, by rw [hvbg]; exact beq_self_eq_true _⟩
  have hkeys : (gs1.map fun p => p.1).Nodup :=
    phase1_keys_nodup vars (choicesDict vars) [] [] s asn1 gs1 s1 hp1 (by simp)
  have hmem_g : groupMembers g gs1 = vars.filter fun w => w.unique_group == some g := by
    rw [phase1_members vars (choicesDict vars) [] [] s asn1 gs1 s1 hp1 g]
    rw [show groupMembers g ([] : List (String × List PyVariable)) = [] from rfl,
      List.nil_append]
  have hentry : ∀ p ∈ gs1, p.2 = vars.filter fun w => w.unique_group == some p.1 := by
    intro p hp
    have h1 : groupMembers p.1 gs1 = p.2 :=
      groupMembers_of_mem gs1 hkeys p.1 p.2 (by rw [Prod.mk.eta]; exact hp)
    have h2 := phase1_members vars (choicesDict vars) [] [] s asn1 gs1 s1 hp1 p.1
    rw [show groupMembers p.1 ([] : List (String × List PyVariable)) = [] from rfl,
      List.nil_append] at h2
    rw [← h1, h2]
  have hvarinj : ∀ {x y : PyVariable}, x ∈ vars → y ∈ vars → x.id = y.id → x = y :=
    fun hx hy hxy => List.inj_on_of_nodup_map hids hx hy hxy
  have hpairkeys : gs1.Pairwise fun p q => p.1 ≠ q.1 := List.pairwise_map.mp hkeys
  have hdisj : gs1.Pairwise fun p q => ∀ m ∈ p.2, ∀ m2 ∈ q.2, m.id ≠ m2.id := by
    refine hpairkeys.imp_of_mem ?_
    intro p q hp hq hne m hm m2 hm2 hid
    have hmv := List.mem_filter.mp (hentry p hp ▸ hm)
    have hm2v := List.mem_filter.mp (hentry q hq ▸ hm2)
    have hmm : m = m2 := hvarinj hmv.1 hm2v.1 hid
    apply hne
    have e1 : m.unique_group = some p.1 := eq_of_beq hmv.2
    have e2 : m2.unique_group = some q.1 := eq_of_beq hm2v.2
    rw [hmm] at e1
    exact Option.some.inj (e1.symm.trans e2)
  have hgmem : (g, vars.filter fun w => w.unique_group == some g) ∈ gs1 := by
    cases hf : gs1.find? fun p => p.1 == g with
    | none =>
      exfalso
      have hnil : groupMembers g gs1 = [] := by unfold groupMembers; rw [hf]
      rw [hmem_g] at hnil
      rw [hnil] at hva_mem
      simp at hva_mem
    | some p =>
      have hpm : p ∈ gs1 := List.mem_of_find?_eq_some hf
      have hpk : p.1 = g := eq_of_beq (by simpa using List.find?_some hf)
      have hp2 : p.2 = vars.filter fun w => w.unique_group == some g := by
        have hgm : groupMembers g gs1 = p.2 := by unfold groupMembers; rw [hf]
        rw [hmem_g] at hgm
        exact hgm.symm
      have hpe : p = (g, vars.filter fun w => w.unique_group == some g) := by
        rw [← hp2, ← hpk, Prod.mk.eta]
      rw [← hpe]
      exact hpm
  have hvabid : va.id ≠ vb.id := by
    rw [← haid, ← hbid]
    exact hab
  obtain ⟨wa, wb, hwa, hwb, hwne⟩ := processGroups_lookup_main gs1 (choicesDict vars) asn1 s1
    asn2 s2 hpg hdisj g (vars.filter fun w => w.unique_group == some g) hgmem va vb
    hva_mem hvb_mem hvabid
  have ha2 : a.original_value = wa := by rw [hwa] at haval; exact haval
  have hb2 : b.original_value = wb := by rw [hwb] at hbval; exact hbval
  rw [ha2, hb2]
  exact hwne

/-- Witness for C3: the two-variable group `{a, b}` with candidate set
`{1,2,3}` each, drawn with stream `[0, 1]`, receives the distinct values
`"1"` and `"2"`. -/
theorem C3_unique_group_distinct_witness :
    wVarA.original_value ≠ wVarB2.original_value :=
  C3_unique_group_distinct [wVarA, wVarB] [0, 1] [wVarA, wVarB2] [] "g"
    (by rfl) (by decide) (by decide) wVarA wVarB2 (by simp) (by simp)
    (by rfl) (by rfl) (by decide)

/-- C7 counterexample: for `min=0, max=10, step=2` with no exclusions the
generated candidate set is NOT the six strings `"0","2","4","6","8","10"` —
the source renders each candidate with `str(round(var, 4))` on a numpy
float64, which keeps the trailing `.0` on integral values. -/
theorem C7_range_expansion_counterexample :
    rangeChoices ⟨0, 0⟩ ⟨10, 0⟩ ⟨2, 0⟩ [] ≠ ["0", "2", "4", "6", "8", "10"] := by
  decide

/-- C7 (amended): for `min=0, max=10, step=2` with no exclusions the
candidate set is exactly the six strings `"0.0","2.0","4.0","6.0","8.0",
"10.0"` — every value `min + k*step` up to the inclusive upper bound, rounded
to 4 decimal places and rendered by float `str` (integral values keep a
trailing `.0`). -/
theorem C7_range_expansion_amended :
    rangeChoices ⟨0, 0⟩ ⟨10, 0⟩ ⟨2, 0⟩ [] = ["0.0", "2.0", "4.0", "6.0", "8.0", "10.0"] := by
  decide

/-! ### Orchestrator and grading lemmas -/

theorem varLoop_cons_error (taskId issueId : Nat) (v : PyVariable) (rest : List PyVariable)
    (vm : List (String × String)) :
    varLoop taskId issueId (v :: rest) vm =
      .error "TypeError: UsedVariable() got unexpected keyword arguments" := rfl

theorem startIssueCreate_false_error
    (sympyEval : String → List (String × String) → Except String Dec) (task : PyTask)
    (rs ss : List Nat) (v : PyVariable) (rest : List PyVariable)
    (hv : task.vars' = v :: rest) :
    startIssueCreate sympyEval task false rs ss =
      .error "TypeError: UsedVariable() got unexpected keyword arguments" := by
  unfold startIssueCreate
  rw [hv]
  rfl

/-- C9: the fresh-creation path is not executable for any task with at least
one Variable — the very first `UsedVariable.objects.create` call passes the
keyword `additional_variable`, which `models.UsedVariable` does not declare,
so Django raises `TypeError` before anything is rendered (with
`random=false` that is exactly the error; with `random=true` the path still
always errors); likewise the persisted-row resume path reads the undeclared
`used.split_map` attribute and raises `AttributeError` on its first row. -/
theorem C9_creation_not_executable :
    (∀ (sympyEval : String → List (String × String) → Except String Dec) (task : PyTask)
      (random_param : Bool) (rs ss : List Nat), task.vars' ≠ [] →
      ∃ e, startIssueCreate sympyEval task random_param rs ss = .error e) ∧
    (∀ (sympyEval : String → List (String × String) → Except String Dec) (task : PyTask)
      (rs ss : List Nat), task.vars' ≠ [] →
      startIssueCreate sympyEval task false rs ss =
        .error "TypeError: UsedVariable() got unexpected keyword arguments") ∧
    (∀ (rows : List UsedVarRow) (opts : List AnswerOptRow) (ss : List Nat), rows ≠ [] →
      resumeIssue rows opts ss =
        .error "AttributeError: 'UsedVariable' object has no attribute 'split_map'") := by
  refine ⟨?_, ?_, ?_⟩
  · intro sympyEval task rp rs ss hne
    cases hv : task.vars' with
    | nil => exact absurd hv hne
    | cons v rest =>
      cases rp with
      | false => exact ⟨_, startIssueCreate_false_error sympyEval task rs ss v rest hv⟩
      | true =>
        cases hr : randomize_variables task.vars' rs with
        | error e =>
          refine ⟨e, ?_⟩
          unfold startIssueCreate
          rw [hr]
          rfl
        | ok pr =>
          obtain ⟨vars2, rs2⟩ := pr
          obtain ⟨asn1, gs1, s1, asn2, _, _, hres⟩ :=
            randomize_variables_ok_parts task.vars' rs vars2 rs2 hr
          refine ⟨"TypeError: UsedVariable() got unexpected keyword arguments", ?_⟩
          unfold startIssueCreate
          rw [hr, hres, hv]
          rfl
  · intro sympyEval task rs ss hne
    cases hv : task.vars' with
    | nil => exact absurd hv hne
    | cons v rest => exact startIssueCreate_false_error sympyEval task rs ss v rest hv
  · intro rows opts ss hne
    cases rows with
    | nil => exact absurd rfl hne
    | cons r rest => rfl

/-- Witness for C9 at a concrete one-variable task and a concrete row. -/
theorem C9_creation_not_executable_witness :
    (∃ e, startIssueCreate (fun _ _ => .error "sympy") ⟨1, "t", [wVarA], [], []⟩ false [] [] =
      .error e) ∧
    startIssueCreate (fun _ _ => .error "sympy") ⟨1, "t", [wVarA], [], []⟩ false [] [] =
      .error "TypeError: UsedVariable() got unexpected keyword arguments" ∧
    resumeIssue [⟨"b", "3"⟩] [] [] =
      .error "AttributeError: 'UsedVariable' object has no attribute 'split_map'" :=
  ⟨C9_creation_not_executable.1 (fun _ _ => .error "sympy") ⟨1, "t", [wVarA], [], []⟩ false [] []
      (by decide),
   C9_creation_not_executable.2.1 (fun _ _ => .error "sympy") ⟨1, "t", [wVarA], [], []⟩ [] []
      (by decide),
   C9_creation_not_executable.2.2 [⟨"b", "3"⟩] [] [] (by decide)⟩

/-- C2: resuming an Issue that already has a persisted UsedVariable row does
not reproduce the original rendering — the resume path raises
`AttributeError` while reading `used.split_map` (an attribute
`models.UsedVariable` does not declare) before anything is rendered; shown
here on the concrete issue with the single persisted row `(a, 2)` and one
symbolic answer option. -/
theorem C2_resume_crashes_on_split_map :
    resumeIssue [⟨"a", "2"⟩] [⟨5, 1, "answer a", true, "symbolic"⟩] [] =
      .error "AttributeError: 'UsedVariable' object has no attribute 'split_map'" := rfl

/-- C1: the Answer Option Builder does not evaluate a numeric-format
option's content as a formula — views.py's `build_answer_options` renders the
content string as a Django template for every display format, so the numeric
option `a*b` under the substitution map `a=4, b=2.5` comes back as the
literal string `a*b` (evaluating it as the spec, the view's docstring and
the test-suite reference implementation describe would yield `10`, a
different string). -/
theorem C1_numeric_option_not_evaluated :
    build_answer_options [⟨7, 1, "a*b", true, "numeric"⟩] []
        [("a", "4"), ("b", "2.5")] [("a", PyNum.int 4), ("b", PyNum.float ⟨25, 1⟩)] [] =
      [⟨7, "a*b", true, "numeric"⟩] ∧ ("a*b" : String) ≠ "10" :=
  ⟨by decide, by decide⟩

theorem answerResultValidate_none (db : List UserAnswerRow) (table : List AnswerOptRow)
    (u : Option Nat) (issue taskId : Nat) :
    answerResultValidate db table u issue taskId Option.none =
      (.errorPage "Musisz zaznaczyć odpowiedź przed wysłaniem!",
        (getOrCreateUA db u issue).2.2) := rfl

theorem answerResultValidate_some (db : List UserAnswerRow) (table : List AnswerOptRow)
    (u : Option Nat) (issue taskId sid : Nat) :
    answerResultValidate db table u issue taskId (some sid) =
      (match table.find? fun r => r.id == sid with
       | Option.none =>
         (.errorPage "Wybrana odpowiedź nie istnieje!", (getOrCreateUA db u issue).2.2)
       | some _sel =>
         (.graded sid (match correct_answer table taskId with
            | some c => sid == c.id
            | Option.none => false),
          (getOrCreateUA db u issue).2.2.map fun r =>
            if r.user == u && r.issue == issue then
              ⟨r.user, r.issue, [sid], r.used_hint, true⟩
            else r)) := rfl

/-- C5 counterexample: a grading request with no option selected fails
softly but DOES mutate state — `get_or_create` runs before validation, so
the failed attempt creates a blank `UserAnswer` row in an empty store. -/
theorem C5_counterexample_state_mutated :
    (answerResultValidate [] [] Option.none 1 1 Option.none).1 =
      .errorPage "Musisz zaznaczyć odpowiedź przed wysłaniem!" ∧
    (answerResultValidate [] [] Option.none 1 1 Option.none).2 ≠ ([] : List UserAnswerRow) :=
  ⟨rfl, by decide⟩

/-- C5 (amended): for every grading request with no option selected or with
an unknown selected option id, the request fails softly with an explanatory
message; no existing record is modified and no selection or answer date is
recorded — but a blank `UserAnswer` row may be appended by the
`get_or_create` that precedes validation. -/
theorem C5_soft_failure_amended :
    ∀ (db : List UserAnswerRow) (table : List AnswerOptRow) (u : Option Nat)
      (issue taskId : Nat) (sel : Option Nat),
      (sel = Option.none ∨ ∃ sid, sel = some sid ∧
        (table.find? fun r => r.id == sid) = Option.none) →
      ∃ msg, (answerResultValidate db table u issue taskId sel).1 = .errorPage msg ∧
        ((answerResultValidate db table u issue taskId sel).2 = db ∨
         (answerResultValidate db table u issue taskId sel).2 =
           db ++ [⟨u, issue, [], false, false⟩]) := by
  intro db table u issue taskId sel hsel
  have hstate : (getOrCreateUA db u issue).2.2 = db ∨
      (getOrCreateUA db u issue).2.2 = db ++ [⟨u, issue, [], false, false⟩] := by
    unfold getOrCreateUA
    cases hf : db.find? fun r => r.user == u && r.issue == issue with
    | some r => left; rfl
    | none => right; rfl
  rcases hsel with rfl | ⟨sid, rfl, hfind⟩
  · rw [answerResultValidate_none]
    exact ⟨_, rfl, hstate⟩
  · rw [answerResultValidate_some, hfind]
    exact ⟨_, rfl, hstate⟩

/-- Witness for C5's amended statement at the concrete empty store. -/
theorem C5_soft_failure_amended_witness :
    ∃ msg, (answerResultValidate [] [] Option.none 1 1 Option.none).1 = .errorPage msg ∧
      ((answerResultValidate [] [] Option.none 1 1 Option.none).2 = [] ∨
       (answerResultValidate [] [] Option.none 1 1 Option.none).2 =
         [] ++ [⟨Option.none, 1, [], false, false⟩]) :=
  C5_soft_failure_amended [] [] Option.none 1 1 Option.none (Or.inl rfl)

theorem qsStep_none (r : AnswerOptRow) : qsStep Option.none r = some r := rfl

theorem qsStep_some (m r : AnswerOptRow) :
    qsStep (some m) r = if r.id < m.id then some r else some m := rfl

theorem qsFirst_go : ∀ (l : List AnswerOptRow) (acc : AnswerOptRow),
    ∃ m, l.foldl qsStep (some acc) = some m ∧
      (m = acc ∨ m ∈ l) ∧ m.id ≤ acc.id ∧ ∀ x ∈ l, m.id ≤ x.id
  | [], acc => ⟨acc, rfl, Or.inl rfl, Nat.le_refl _, by simp⟩
  | r :: rest, acc => by
    by_cases hlt : r.id < acc.id
    · obtain ⟨m, hm, hmem, hle, hall⟩ := qsFirst_go rest r
      refine ⟨m, ?_, ?_, by omega, ?_⟩
      · rw [List.foldl_cons, qsStep_some, if_pos hlt]
        exact hm
      · rcases hmem with rfl | hmm2
        · exact Or.inr (List.mem_cons_self _ _)
        · exact Or.inr (List.mem_cons_of_mem _ hmm2)
      · intro x hx
        rcases List.mem_cons.mp hx with rfl | hx2
        · omega
        · exact hall x hx2
    · obtain ⟨m, hm, hmem, hle, hall⟩ := qsFirst_go rest acc
      refine ⟨m, ?_, ?_, hle, ?_⟩
      · rw [List.foldl_cons, qsStep_some, if_neg hlt]
        exact hm
      · exact hmem.imp id (List.mem_cons_of_mem _)
      · intro x hx
        rcases List.mem_cons.mp hx with rfl | hx2
        · omega
        · exact hall x hx2

theorem qsFirst_spec (l : List AnswerOptRow) (m : AnswerOptRow) (h : qsFirst l = some m) :
    m ∈ l ∧ ∀ x ∈ l, m.id ≤ x.id := by
  cases l with
  | nil => exact absurd h (by simp [qsFirst])
  | cons r rest =>
    unfold qsFirst at h
    rw [List.foldl_cons, qsStep_none] at h
    obtain ⟨m2, hm2, hmem, hle, hall⟩ := qsFirst_go rest r
    rw [hm2] at h
    obtain rfl : m2 = m := Option.some.inj h
    refine ⟨?_, ?_⟩
    · rcases hmem with rfl | hmm2
      · exact List.mem_cons_self _ _
      · exact List.mem_cons_of_mem _ hmm2
    · intro x hx
      rcases List.mem_cons.mp hx with rfl | hx2
      · exact hle
      · exact hall x hx2

theorem qsFirst_isSome (l : List AnswerOptRow) (hne : l ≠ []) : ∃ m, qsFirst l = some m := by
  cases l with
  | nil => exact absurd rfl hne
  | cons r rest =>
    unfold qsFirst
    rw [List.foldl_cons, qsStep_none]
    obtain ⟨m, hm, _, _, _⟩ := qsFirst_go rest r
    exact ⟨m, hm⟩

/-- C10: the grading segment marks the selection correct exactly when the
selected option id equals the id of
`AnswerOption.objects.filter(task=task, is_correct=True).first()` — the
correct-flagged option of the task with the smallest primary key (Django's
`.first()` pk order on an unordered queryset); consequently, when several
options of a task are flagged correct, selecting any flagged-correct option
other than the lowest-pk one is graded as incorrect. -/
theorem C10_grading_first_correct :
    (∀ (db : List UserAnswerRow) (table : List AnswerOptRow) (u : Option Nat)
      (issue taskId sid : Nat) (sel : AnswerOptRow),
      (table.find? fun r => r.id == sid) = some sel →
      ((answerResultValidate db table u issue taskId (some sid)).1 = .graded sid true ↔
        ∃ c, correct_answer table taskId = some c ∧ c.id = sid)) ∧
    (∀ (table : List AnswerOptRow) (taskId : Nat) (c : AnswerOptRow),
      correct_answer table taskId = some c →
      c ∈ table ∧ c.task = taskId ∧ c.is_correct = true ∧
        ∀ c2 ∈ table, c2.task = taskId → c2.is_correct = true → c.id ≤ c2.id) ∧
    (∀ (db : List UserAnswerRow) (table : List AnswerOptRow) (u : Option Nat)
      (issue taskId : Nat) (sel : AnswerOptRow),
      sel ∈ table → sel.task = taskId → sel.is_correct = true →
      (∃ c ∈ table, c.task = taskId ∧ c.is_correct = true ∧ c.id < sel.id) →
      ∃ found, (table.find? fun r => r.id == sel.id) = some found ∧
        (answerResultValidate db table u issue taskId (some sel.id)).1 =
          .graded sel.id false) := by
  refine ⟨?_, ?_, ?_⟩
  · intro db table u issue taskId sid sel hfind
    rw [answerResultValidate_some, hfind]
    constructor
    · intro h
      cases hca : correct_answer table taskId with
      | none =>
        rw [hca] at h
        simp at h
      | some c =>
        rw [hca] at h
        simp only [GradeOutcome.graded.injEq] at h
        exact ⟨c, rfl, (eq_of_beq h.2).symm⟩
    · rintro ⟨c, hc, hcid⟩
      rw [hc]
      simp only [GradeOutcome.graded.injEq]
      exact ⟨trivial, by rw [hcid]; simp⟩
  · intro table taskId c hc
    unfold correct_answer at hc
    obtain ⟨hmem, hmin⟩ := qsFirst_spec _ c hc
    have hmf := List.mem_filter.mp hmem
    have hflag : (c.task == taskId && c.is_correct) = true := hmf.2
    simp only [Bool.and_eq_true, beq_iff_eq] at hflag
    refine ⟨hmf.1, hflag.1, hflag.2, ?_⟩
    intro c2 hc2 ht2 hcor2
    exact hmin c2 (List.mem_filter.mpr ⟨hc2, by simp [ht2, hcor2]⟩)
  · intro db table u issue taskId sel hmem ht hcor hex
    obtain ⟨c, hcmem, hct, hccor, hclt⟩ := hex
    have hfilter_ne : (table.filter fun r => r.task == taskId && r.is_correct) ≠ [] := by
      intro hnil
      have : c ∈ table.filter fun r => r.task == taskId && r.is_correct :=
        List.mem_filter.mpr ⟨hcmem, by simp [hct, hccor]⟩
      rw [hnil] at this
      simp at this
    obtain ⟨m, hm⟩ := qsFirst_isSome _ hfilter_ne
    have hmspec := qsFirst_spec _ m hm
    have hmlec : m.id ≤ c.id := hmspec.2 c
      (List.mem_filter.mpr ⟨hcmem, by simp [hct, hccor]⟩)
    have hfound : ∃ found, (table.find? fun r => r.id == sel.id) = some found := by
      cases hf : table.find? fun r => r.id == sel.id with
      | none =>
        exfalso
        rw [List.find?_eq_none] at hf
        exact hf sel hmem (by simp)
      | some found => exact ⟨found, rfl⟩
    obtain ⟨found, hf⟩ := hfound
    refine ⟨found, hf, ?_⟩
    rw [answerResultValidate_some, hf]
    have hca : correct_answer table taskId = some m := hm
    rw [hca]
    simp only [GradeOutcome.graded.injEq]
    refine ⟨trivial, ?_⟩
    have : sel.id ≠ m.id := by omega
    simp [this]

/-- Witness for C10: a two-correct-options table where selecting the
second-lowest-pk correct option is graded incorrect. -/
theorem C10_grading_first_correct_witness :
    ∃ found, (([⟨1, 1, "A", true, "numeric"⟩, ⟨2, 1, "B", true, "numeric"⟩] :
        List AnswerOptRow).find? fun r => r.id == (⟨2, 1, "B", true, "numeric"⟩ :
        AnswerOptRow).id) = some found ∧
      (answerResultValidate [] [⟨1, 1, "A", true, "numeric"⟩, ⟨2, 1, "B", true, "numeric"⟩]
        Option.none 1 1 (some (⟨2, 1, "B", true, "numeric"⟩ : AnswerOptRow).id)).1 =
        .graded (⟨2, 1, "B", true, "numeric"⟩ : AnswerOptRow).id false :=
  C10_grading_first_correct.2.2 [] [⟨1, 1, "A", true, "numeric"⟩, ⟨2, 1, "B", true, "numeric"⟩]
    Option.none 1 1 ⟨2, 1, "B", true, "numeric"⟩ (by decide) (by decide) (by decide)
    ⟨⟨1, 1, "A", true, "numeric"⟩, by decide, by decide, by decide, by decide⟩

end Matematyka
